import Mathlib

/-!
# Verification of the synkrotron difference engine

This development gives a shallow embedding of the core of `synkrotron.py`
(classes `Remote`, `Repo`, `Diff`) and proves, or refutes, the frozen claims
about its specification.

Conventions used throughout:

* Python strings are Lean `String`s; Python `float` timestamps (`st_mtime`)
  are modelled as rationals `ℚ`; Python `int` sizes as `ℤ`.
* Python dictionaries are association lists `List (String × α)` looked up
  with `List.lookup`; insertion overwrites the previous binding, as in
  Python (`dict_insert` below).
* Fallible code (a Python exception) is modelled with `Except String`.
* External subprocesses (`encfsctl`) are oracle functions passed as
  arguments.

Each embedded definition cites the line numbers of `synkrotron.py` it is
translated from.
-/

namespace Synkrotron

/-- File kind recorded by `Repo._collect_local.info` (lines 266-274):
`d` directory, `f` regular file, `l` symbolic link. -/
inductive FType where
  | d : FType
  | f : FType
  | l : FType
deriving DecidableEq, Repr, Fintype

/-- The stat triple `(file_type, st_size, st_mtime)` produced by
`Repo._collect_local.info` (line 275). -/
structure Stat where
  kind : FType
  size : ℤ
  mtime : ℚ
deriving DecidableEq, Repr

/-- Python `int()` applied to a rational: truncation toward zero.
Models line 556, `int(stat_src[2] - stat_dst[2])`. -/
def pyInt (q : ℚ) : ℤ := if 0 ≤ q then ⌊q⌋ else ⌈q⌉

/-- Python `ord` of the one-character file-type codes, used by
`diff_type = ord(stat_src[0]) - ord(stat_dst[0])` (line 568). -/
def ordF : FType → ℤ
  | FType.d => 100
  | FType.f => 102
  | FType.l => 108

/-- The `file_types` dictionary of line 570. -/
def file_types : FType → String
  | FType.d => "directory"
  | FType.f => "regular file"
  | FType.l => "symbolic link"

/-- Witness part of a diff item: a single surviving stat for `push`/`pull`,
or the `(stat_src, stat_dst)` pair for symmetric comparisons. -/
inductive Witness where
  | one : Stat → Witness
  | two : Stat → Stat → Witness
deriving DecidableEq, Repr

/-- The options of `Diff.__init__` (lines 472-488). -/
structure DiffOpts where
  ignore_time : Bool
  content : Bool
  modify_window : ℤ
deriving DecidableEq, Repr

/-- A computed diff entry `(witness, operation, rationale)`; the operation is
`none` exactly where Python stores `None` (line 564). -/
abbrev CmpItem : Type := Witness × Option String × String

/-- Lines 556-558: `diff_time = int(stat_src[2] - stat_dst[2])`, then
`if abs(diff_time) < self.modify_window: diff_time = 0`.  Note the strict
`<` and the truncation of the raw difference. -/
def diff_time (o : DiffOpts) (statSrc statDst : Stat) : ℤ :=
  if |pyInt (statSrc.mtime - statDst.mtime)| < o.modify_window then 0
  else pyInt (statSrc.mtime - statDst.mtime)

/-- Lines 559-564: the `time_cmp` triple (witness, time verdict, rationale). -/
def time_cmp (o : DiffOpts) (statSrc statDst : Stat) : CmpItem :=
  if diff_time o statSrc statDst < 0 then
    (Witness.one statDst, some "pull", "remote file is newer")
  else if 0 < diff_time o statSrc statDst then
    (Witness.one statSrc, some "push", "local file is newer")
  else
    (Witness.two statSrc statDst, none, "files have the same timestamp")

/-- Embedding of `Diff._compare_stats` (lines 552-594).

The two hash oracles model `Repo.file_hash` of the local and the remote
repository as functions of the relative path.  (In the source, when the
remote is an encrypted network location the local hash is taken through the
EncFS reverse mount under the encrypted name, lines 582-584; that is a
different view of the same local file, absorbed here into `hashLocal`.)

The `Except.error` case is the Python `UnboundLocalError` raised on lines
577-579: the dictionary `file_types` is only assigned inside the
`if diff_type:` branch (line 570), so the size branch, which is reached
only when `diff_type == 0`, references an unassigned local variable while
formatting its rationale string. -/
def compare_stats (o : DiffOpts) (hashLocal hashRemote : String → String)
    (statSrc statDst : Stat) (file : String) :
    Except String (Option CmpItem) :=
  if statSrc.kind = FType.d ∧ statDst.kind = FType.d then
    Except.ok none
  else if o.ignore_time = false ∧ diff_time o statSrc statDst ≠ 0 then
    Except.ok (some (time_cmp o statSrc statDst))
  else if ordF statSrc.kind - ordF statDst.kind ≠ 0 then
    Except.ok (some ((time_cmp o statSrc statDst).1,
      (if diff_time o statSrc statDst ≠ 0
        then (time_cmp o statSrc statDst).2.1 else some "type"),
      "files have different types (local: " ++ file_types statSrc.kind ++
        ", remote: " ++ file_types statDst.kind ++ "); " ++
        (time_cmp o statSrc statDst).2.2))
  else if statSrc.size - statDst.size ≠ 0 then
    Except.error "UnboundLocalError: local variable file_types referenced before assignment"
  else if o.content = true then
    if hashLocal file ≠ hashRemote file then
      Except.ok (some ((time_cmp o statSrc statDst).1,
        (if diff_time o statSrc statDst ≠ 0
          then (time_cmp o statSrc statDst).2.1 else some "content"),
        "files have different content; " ++ (time_cmp o statSrc statDst).2.2 ++
          "\n    local file hash:  " ++ hashLocal file ++
          "\n    remote file hash: " ++ hashRemote file))
    else
      Except.ok none
  else
    Except.ok none

/-- A trivial hash oracle for concrete evaluations. -/
def hash0 : String → String := fun _ => ""

/-- A trivial stat used to fill impossible lookups. -/
def stat0 : Stat := ⟨FType.f, 0, 0⟩

/-- C1: the claim states that the engine computes
`Δt = floor(L.mtime) − floor(R.mtime)` and treats `|Δt| ≤ modify_window`
as `Δt = 0`, so that a difference of exactly `modify_window` seconds makes
the files time-equal.  The code violates both parts, against its own
docstring (line 480: "the maximum allowed time difference between two
files in order to be considered equal"):

1. with `modify_window = 5` and mtimes `5` and `0` (difference exactly the
   window) the code emits a `push` time verdict instead of treating the
   files as time-equal, because line 557 uses the strict
   `abs(diff_time) < self.modify_window`;
2. with `modify_window = 0` and mtimes `2` and `11/10` the code computes
   `int(2 - 11/10) = 0` and reports no difference, whereas the claimed
   `floor(2) - floor(11/10) = 1` would have to yield a `push` item. -/
theorem C1_modify_window_code_bug :
    compare_stats ⟨false, false, 5⟩ hash0 hash0
        ⟨FType.f, 7, 5⟩ ⟨FType.f, 7, 0⟩ "file" =
      Except.ok (some (Witness.one ⟨FType.f, 7, 5⟩, some "push", "local file is newer")) ∧
    compare_stats ⟨false, false, 0⟩ hash0 hash0
        ⟨FType.f, 7, 2⟩ ⟨FType.f, 7, 11/10⟩ "file" =
      Except.ok none ∧
    ⌊(2 : ℚ)⌋ - ⌊(11/10 : ℚ)⌋ = 1 := by
  refine ⟨?_, ?_, by norm_num⟩
  · simp [compare_stats, diff_time, time_cmp, pyInt]
  · simp [compare_stats, diff_time, time_cmp, pyInt]
    norm_num

/-- C3: the claim states that two entries of equal kind and differing size
(with the time comparison not deciding) produce a DiffItem with operation
`size` and do not fail.  In fact the code crashes: the size branch (lines
574-579) formats its rationale with the dictionary `file_types`, which is
only assigned inside the earlier `if diff_type:` branch (line 570) that is
skipped precisely when the kinds are equal, so Python raises an
`UnboundLocalError`.  Here: two regular files, same mtime, sizes 1 and 2. -/
theorem C3_size_branch_code_bug :
    compare_stats ⟨false, false, 0⟩ hash0 hash0
        ⟨FType.f, 1, 0⟩ ⟨FType.f, 2, 0⟩ "file" =
      Except.error "UnboundLocalError: local variable file_types referenced before assignment" := by
  simp [compare_stats, diff_time, time_cmp, pyInt]

/-- Distinct file-type codes have distinct `ord` values (line 568). -/
theorem ordF_sub_ne_zero : ∀ a b : FType, a ≠ b → ordF a - ordF b ≠ 0 := by decide

/-- C4, counterexample: with `ignore_time = true`, `modify_window = 0`, a
regular file of mtime 10 against a directory of mtime 0, the kinds differ
and the time comparison does not return early, yet the emitted item carries
operation `push` (the time verdict, line 572: `time_cmp[1] if diff_time
else 'type'`) and the single newer-side witness — not operation `type`
with the pair witness, as the claim states. -/
theorem C4_counterexample :
    compare_stats ⟨true, false, 0⟩ hash0 hash0
        ⟨FType.f, 5, 10⟩ ⟨FType.d, 0, 0⟩ "file" =
      Except.ok (some (Witness.one ⟨FType.f, 5, 10⟩, some "push",
        "files have different types (local: regular file, remote: directory); local file is newer")) ∧
    (some "push" : Option String) ≠ some "type" := by
  constructor
  · simp [compare_stats, diff_time, time_cmp, pyInt, file_types, ordF]
  · decide

/-- C4, amended: the bare time-verdict item is returned exactly when
`ignore_time = false` and `Δt ≠ 0` (lines 565-566); when the kinds differ,
the emitted item has operation `type` and the pair witness only when
`Δt = 0` (after the window); when `ignore_time = true` and `Δt ≠ 0` the
item instead carries the time verdict (`push`/`pull`) and the single
newer-side witness (lines 567-573). -/
theorem C4_amended_type_emission (o : DiffOpts) (hL hR : String → String)
    (sL sR : Stat) (file : String)
    (hnd : ¬(sL.kind = FType.d ∧ sR.kind = FType.d)) :
    (o.ignore_time = false → diff_time o sL sR ≠ 0 →
      compare_stats o hL hR sL sR file = Except.ok (some (time_cmp o sL sR))) ∧
    (diff_time o sL sR = 0 → sL.kind ≠ sR.kind →
      compare_stats o hL hR sL sR file =
        Except.ok (some (Witness.two sL sR, some "type",
          "files have different types (local: " ++ file_types sL.kind ++
            ", remote: " ++ file_types sR.kind ++ "); " ++
            "files have the same timestamp"))) ∧
    (o.ignore_time = true → diff_time o sL sR ≠ 0 → sL.kind ≠ sR.kind →
      compare_stats o hL hR sL sR file =
        Except.ok (some ((time_cmp o sL sR).1, (time_cmp o sL sR).2.1,
          "files have different types (local: " ++ file_types sL.kind ++
            ", remote: " ++ file_types sR.kind ++ "); " ++
            (time_cmp o sL sR).2.2))) ∧
    (diff_time o sL sR ≠ 0 →
      ((time_cmp o sL sR).2.1 = some "push" ∧ (time_cmp o sL sR).1 = Witness.one sL) ∨
      ((time_cmp o sL sR).2.1 = some "pull" ∧ (time_cmp o sL sR).1 = Witness.one sR)) := by
  refine ⟨?_, ?_, ?_, ?_⟩
  · intro hit hdt
    simp [compare_stats, hnd, hit, hdt]
  · intro hdt hk
    simp [compare_stats, time_cmp, hnd, hdt, ordF_sub_ne_zero sL.kind sR.kind hk]
  · intro hit hdt hk
    simp [compare_stats, hnd, hit, hdt, ordF_sub_ne_zero sL.kind sR.kind hk]
  · intro hdt
    rcases lt_trichotomy (diff_time o sL sR) 0 with h | h | h
    · simp [time_cmp, h]
    · exact absurd h hdt
    · simp [time_cmp, h, lt_asymm h]

/-- C4, witness for the amended theorem at a concrete input: a regular file
against a directory, `ignore_time = true`, window 0. -/
theorem C4_amended_witness :
    (¬(FType.f = FType.d ∧ FType.d = FType.d)) ∧
    (((⟨true, false, 0⟩ : DiffOpts).ignore_time = false →
        diff_time ⟨true, false, 0⟩ ⟨FType.f, 1, 10⟩ ⟨FType.d, 0, 0⟩ ≠ 0 →
        compare_stats ⟨true, false, 0⟩ hash0 hash0 ⟨FType.f, 1, 10⟩ ⟨FType.d, 0, 0⟩ "x" =
          Except.ok (some (time_cmp ⟨true, false, 0⟩ ⟨FType.f, 1, 10⟩ ⟨FType.d, 0, 0⟩))) ∧
      (diff_time ⟨true, false, 0⟩ ⟨FType.f, 1, 10⟩ ⟨FType.d, 0, 0⟩ = 0 →
        (⟨FType.f, 1, 10⟩ : Stat).kind ≠ (⟨FType.d, 0, 0⟩ : Stat).kind →
        compare_stats ⟨true, false, 0⟩ hash0 hash0 ⟨FType.f, 1, 10⟩ ⟨FType.d, 0, 0⟩ "x" =
          Except.ok (some (Witness.two ⟨FType.f, 1, 10⟩ ⟨FType.d, 0, 0⟩, some "type",
            "files have different types (local: " ++ file_types (⟨FType.f, 1, 10⟩ : Stat).kind ++
              ", remote: " ++ file_types (⟨FType.d, 0, 0⟩ : Stat).kind ++ "); " ++
              "files have the same timestamp"))) ∧
      ((⟨true, false, 0⟩ : DiffOpts).ignore_time = true →
        diff_time ⟨true, false, 0⟩ ⟨FType.f, 1, 10⟩ ⟨FType.d, 0, 0⟩ ≠ 0 →
        (⟨FType.f, 1, 10⟩ : Stat).kind ≠ (⟨FType.d, 0, 0⟩ : Stat).kind →
        compare_stats ⟨true, false, 0⟩ hash0 hash0 ⟨FType.f, 1, 10⟩ ⟨FType.d, 0, 0⟩ "x" =
          Except.ok (some ((time_cmp ⟨true, false, 0⟩ ⟨FType.f, 1, 10⟩ ⟨FType.d, 0, 0⟩).1,
            (time_cmp ⟨true, false, 0⟩ ⟨FType.f, 1, 10⟩ ⟨FType.d, 0, 0⟩).2.1,
            "files have different types (local: " ++ file_types (⟨FType.f, 1, 10⟩ : Stat).kind ++
              ", remote: " ++ file_types (⟨FType.d, 0, 0⟩ : Stat).kind ++ "); " ++
              (time_cmp ⟨true, false, 0⟩ ⟨FType.f, 1, 10⟩ ⟨FType.d, 0, 0⟩).2.2))) ∧
      (diff_time ⟨true, false, 0⟩ ⟨FType.f, 1, 10⟩ ⟨FType.d, 0, 0⟩ ≠ 0 →
        ((time_cmp ⟨true, false, 0⟩ ⟨FType.f, 1, 10⟩ ⟨FType.d, 0, 0⟩).2.1 = some "push" ∧
          (time_cmp ⟨true, false, 0⟩ ⟨FType.f, 1, 10⟩ ⟨FType.d, 0, 0⟩).1 =
            Witness.one ⟨FType.f, 1, 10⟩) ∨
        ((time_cmp ⟨true, false, 0⟩ ⟨FType.f, 1, 10⟩ ⟨FType.d, 0, 0⟩).2.1 = some "pull" ∧
          (time_cmp ⟨true, false, 0⟩ ⟨FType.f, 1, 10⟩ ⟨FType.d, 0, 0⟩).1 =
            Witness.one ⟨FType.d, 0, 0⟩))) :=
  ⟨by decide,
    C4_amended_type_emission ⟨true, false, 0⟩ hash0 hash0
      ⟨FType.f, 1, 10⟩ ⟨FType.d, 0, 0⟩ "x" (by decide)⟩

/-! ## The diff list: `Diff.compute` (lines 493-522) -/

/-- Lexicographic comparison of character lists by code point, the order
Python uses to compare `str` values (and hence the order of `sorted` on
relative paths). -/
def lexLe : List Char → List Char → Bool
  | [], _ => true
  | _ :: _, [] => false
  | a :: as, b :: bs => if a < b then true else if b < a then false else lexLe as bs

/-- Python string comparison `a <= b`. -/
def strLe (a b : String) : Bool := lexLe a.data b.data

theorem lexLe_total : ∀ a b, lexLe a b = true ∨ lexLe b a = true := by
  intro a
  induction a with
  | nil => intro b; left; rfl
  | cons c as ih =>
    intro b
    cases b with
    | nil => right; rfl
    | cons d bs =>
      rcases lt_trichotomy c d with h | h | h
      · left; simp [lexLe, h]
      · subst h
        rcases ih bs with h2 | h2
        · left; simp [lexLe, h2]
        · right; simp [lexLe, h2]
      · right; simp [lexLe, h]

theorem lexLe_trans :
    ∀ a b c, lexLe a b = true → lexLe b c = true → lexLe a c = true := by
  intro a
  induction a with
  | nil => intro b c _ _; rfl
  | cons x as ih =>
    intro b c hab hbc
    cases b with
    | nil => simp [lexLe] at hab
    | cons y bs =>
      cases c with
      | nil => simp [lexLe] at hbc
      | cons z cs =>
        simp only [lexLe] at hab hbc ⊢
        rcases lt_trichotomy x y with hxy | hxy | hxy
        · rcases lt_trichotomy y z with hyz | hyz | hyz
          · simp [lt_trans hxy hyz]
          · subst hyz; simp [hxy]
          · simp [hxy, asymm hxy] at hab
            rcases lt_trichotomy x z with h | h | h
            · simp [h]
            · subst h; simp [hyz, asymm hyz] at hbc
            · simp [hyz, asymm hyz] at hbc
        · subst hxy
          rcases lt_trichotomy x z with h | h | h
          · simp [h]
          · subst h
            simp [lt_irrefl] at hab hbc ⊢
            exact ih _ _ hab hbc
          · simp [h, asymm h] at hbc
        · simp [hxy, asymm hxy] at hab

/-- The sort order used for diff-list paths. -/
def rStr (a b : String) : Prop := strLe a b = true

instance : DecidableRel rStr := fun a b => instDecidableEqBool (strLe a b) true

instance : IsTotal String rStr := ⟨fun a b => lexLe_total a.data b.data⟩

instance : IsTrans String rStr := ⟨fun a b c => lexLe_trans a.data b.data c.data⟩

/-- The sort order `sorted(stats_local.items())` uses (line 506): Python
compares the `(key, value)` tuples, which for distinct keys is the key
order. -/
def rPair (a b : String × Stat) : Prop := rStr a.1 b.1

instance : DecidableRel rPair := fun a b => (inferInstance : Decidable (rStr a.1 b.1))

instance : IsTotal (String × Stat) rPair := ⟨fun a b => IsTotal.total (r := rStr) a.1 b.1⟩

instance : IsTrans (String × Stat) rPair :=
  ⟨fun a b c hab hbc => IsTrans.trans (r := rStr) a.1 b.1 c.1 hab hbc⟩

/-- `sorted(stats_local.items())` (line 506). -/
def sortPairs (l : List (String × Stat)) : List (String × Stat) :=
  List.insertionSort rPair l

/-- `sorted(...)` on a list of keys (line 517). -/
def sortStrs (l : List String) : List String :=
  List.insertionSort rStr l

/-- Models the Python `set(...)` built on line 517: one occurrence of each
element (order is irrelevant because the result is sorted right after). -/
def dedupKeys : List String → List String
  | [] => []
  | a :: rest => if a ∈ rest then dedupKeys rest else a :: dedupKeys rest

/-- One entry of `Diff.list`: `(relative_path, witness, operation,
rationale)` as appended on lines 510, 514 and 517. -/
abbrev DItem : Type := String × Witness × Option String × String

/-- The loop over `sorted(stats_local.items())` (lines 506-516): compare
paths present on both sides, emit `push` for local-only paths.  A Python
exception inside `_compare_stats` aborts the whole computation. -/
def compute_core (o : DiffOpts) (hL hR : String → String)
    (statsRemote : List (String × Stat)) :
    List (String × Stat) → Except String (List DItem)
  | [] => Except.ok []
  | (file, statLocal) :: rest =>
    match statsRemote.lookup file with
    | some statRemote =>
      match compare_stats o hL hR statLocal statRemote file with
      | Except.error e => Except.error e
      | Except.ok none => compute_core o hL hR statsRemote rest
      | Except.ok (some cmp) =>
        match compute_core o hL hR statsRemote rest with
        | Except.error e => Except.error e
        | Except.ok items => Except.ok ((file, cmp) :: items)
    | none =>
      match compute_core o hL hR statsRemote rest with
      | Except.error e => Except.error e
      | Except.ok items =>
        Except.ok ((file, Witness.one statLocal, some "push",
          "remote file does not exist") :: items)

/-- Line 517: the `pull` items for the sorted set of remote-only paths,
`[(f, stats_remote[f], 'pull', 'local file does not exist') for f in
sorted(set(stats_remote.keys()).difference(stats_local.keys()))]`.
(The `getD stat0` default is unreachable: every listed key is a key of
`statsRemote`.) -/
def pull_items (statsLocal statsRemote : List (String × Stat)) : List DItem :=
  (sortStrs (dedupKeys ((statsRemote.map Prod.fst).filter
    (fun f => (statsLocal.lookup f).isNone)))).map (fun f =>
      (f, Witness.one ((statsRemote.lookup f).getD stat0), some "pull",
        "local file does not exist"))

/-- Embedding of `Diff.compute` (lines 493-522): the comparison loop over
the sorted local entries, followed by the `pull` items for the sorted set
of remote-only paths (line 517), appended at the end (line 521). -/
def compute (o : DiffOpts) (hL hR : String → String)
    (statsLocal statsRemote : List (String × Stat)) : Except String (List DItem) :=
  match compute_core o hL hR statsRemote (sortPairs statsLocal) with
  | Except.error e => Except.error e
  | Except.ok items => Except.ok (items ++ pull_items statsLocal statsRemote)

theorem mem_dedupKeys {l : List String} {a : String} :
    a ∈ dedupKeys l → a ∈ l := by
  induction l with
  | nil => simp [dedupKeys]
  | cons b bs ih =>
    by_cases hb : b ∈ bs
    · intro hc
      simp only [dedupKeys, if_pos hb] at hc
      exact List.mem_cons_of_mem b (ih hc)
    · intro hc
      simp only [dedupKeys, if_neg hb] at hc
      rcases List.mem_cons.mp hc with h1 | h1
      · exact h1 ▸ List.mem_cons_self b bs
      · exact List.mem_cons_of_mem b (ih h1)

theorem dedupKeys_nodup : ∀ l : List String, (dedupKeys l).Nodup := by
  intro l
  induction l with
  | nil => simp [dedupKeys]
  | cons a rest ih =>
    by_cases h : a ∈ rest
    · simpa [dedupKeys, h] using ih
    · have hm : a ∉ dedupKeys rest := fun hc => h (mem_dedupKeys hc)
      simp [dedupKeys, h, List.nodup_cons, hm, ih]

/-- `dict.lookup` misses exactly the keys that are not in the dictionary. -/
theorem lookup_none_iff {β} (l : List (String × β)) (k : String) :
    l.lookup k = none ↔ k ∉ l.map Prod.fst := by
  induction l with
  | nil => simp [List.lookup]
  | cons p rest ih =>
    obtain ⟨a, b⟩ := p
    by_cases h : k = a
    · subst h
      simp [List.lookup]
    · have hb : (k == a) = false := beq_false_of_ne h
      simp [List.lookup, hb, ih, h]

/-- The paths of the items produced by the local loop form a sublist of the
keys it iterates over (each key yields at most one item, in order). -/
theorem compute_core_keys_sublist (o : DiffOpts) (hL hR : String → String)
    (sr : List (String × Stat)) :
    ∀ (sl : List (String × Stat)) (items : List DItem),
      compute_core o hL hR sr sl = Except.ok items →
      (items.map Prod.fst).Sublist (sl.map Prod.fst) := by
  intro sl
  induction sl with
  | nil =>
    intro items h
    simp only [compute_core, Except.ok.injEq] at h
    subst h
    simp
  | cons p rest ih =>
    intro items h
    obtain ⟨file, statLocal⟩ := p
    simp only [compute_core] at h
    cases hlk : sr.lookup file with
    | some statRemote =>
      simp only [hlk] at h
      cases hc : compare_stats o hL hR statLocal statRemote file with
      | error e =>
        simp only [hc] at h
        exact Except.noConfusion h
      | ok oc =>
        simp only [hc] at h
        cases oc with
        | none => exact (ih items h).cons file
        | some cmp =>
          cases hrest : compute_core o hL hR sr rest with
          | error e =>
            simp only [hrest] at h
            exact Except.noConfusion h
          | ok tailItems =>
            simp only [hrest, Except.ok.injEq] at h
            subst h
            simpa using (ih tailItems hrest).cons₂ file
    | none =>
      simp only [hlk] at h
      cases hrest : compute_core o hL hR sr rest with
      | error e =>
        simp only [hrest] at h
        exact Except.noConfusion h
      | ok tailItems =>
        simp only [hrest, Except.ok.injEq] at h
        subst h
        simpa using (ih tailItems hrest).cons₂ file

theorem pull_items_keys (A B : List (String × Stat)) :
    (pull_items A B).map Prod.fst =
      sortStrs (dedupKeys ((B.map Prod.fst).filter
        (fun f => (A.lookup f).isNone))) := by
  unfold pull_items
  rw [List.map_map]
  exact List.map_id _

theorem pull_items_mem {A B : List (String × Stat)} {x : DItem}
    (hx : x ∈ pull_items A B) :
    x.1 ∉ A.map Prod.fst ∧ x.2.2.1 = some "pull" := by
  obtain ⟨f, hf, rfl⟩ := List.mem_map.mp hx
  have h1 : f ∈ dedupKeys ((B.map Prod.fst).filter (fun f => (A.lookup f).isNone)) :=
    (List.perm_insertionSort rStr _).subset hf
  have h2 := mem_dedupKeys h1
  have h3 := (List.mem_filter.mp h2).2
  refine ⟨(lookup_none_iff A f).mp (Option.isNone_iff_eq_none.mp h3), rfl⟩

/-- C2, counterexample: with local map `{b}` and remote map `{a}` the diff
list is the `push` item for `b` followed by the `pull` item for `a`, which
is not sorted by path (`b` is not ≤ `a`): `compute` only concatenates the
sorted local-keyed items with the sorted remote-only `pull` items. -/
theorem C2_counterexample :
    compute ⟨false, false, 0⟩ hash0 hash0 [("b", stat0)] [("a", stat0)] =
      Except.ok [("b", Witness.one stat0, some "push", "remote file does not exist"),
        ("a", Witness.one stat0, some "pull", "local file does not exist")] ∧
    strLe "b" "a" = false := by
  constructor
  · rfl
  · rfl

/-- C2, amended: the diff list is the concatenation of two blocks — the
items over local keys, sorted by path, and then the `pull` items over the
remote-only keys, sorted by path — and every path occurs at most once in
the whole list.  (The whole list need not be globally sorted, as the
counterexample shows.) -/
theorem C2_amended_structure (o : DiffOpts) (hL hR : String → String)
    (A B : List (String × Stat)) (l : List DItem)
    (hA : (A.map Prod.fst).Nodup)
    (h : compute o hL hR A B = Except.ok l) :
    (l.map Prod.fst).Nodup ∧
    ∃ l1 l2, l = l1 ++ l2 ∧
      List.Sorted rStr (l1.map Prod.fst) ∧
      List.Sorted rStr (l2.map Prod.fst) ∧
      (∀ x ∈ l1, x.1 ∈ A.map Prod.fst) ∧
      (∀ x ∈ l2, x.1 ∉ A.map Prod.fst ∧ x.2.2.1 = some "pull") := by
  simp only [compute] at h
  cases hc : compute_core o hL hR B (sortPairs A) with
  | error e =>
    rw [hc] at h
    exact Except.noConfusion h
  | ok items =>
    rw [hc] at h
    simp only [Except.ok.injEq] at h
    subst h
    have hsubl := compute_core_keys_sublist o hL hR B (sortPairs A) items hc
    have hsortedPairs : List.Sorted rPair (sortPairs A) :=
      List.sorted_insertionSort rPair A
    have hsortedKeys : List.Sorted rStr ((sortPairs A).map Prod.fst) :=
      List.pairwise_map.mpr hsortedPairs
    have hpermKeys : List.Perm ((sortPairs A).map Prod.fst) (A.map Prod.fst) :=
      (List.perm_insertionSort rPair A).map Prod.fst
    have hnodupKeys : ((sortPairs A).map Prod.fst).Nodup := hpermKeys.nodup_iff.mpr hA
    have hl1sorted : List.Sorted rStr (items.map Prod.fst) :=
      hsortedKeys.sublist hsubl
    have hl1nodup : (items.map Prod.fst).Nodup := hnodupKeys.sublist hsubl
    have hl1keys : ∀ x ∈ items, x.1 ∈ A.map Prod.fst := by
      intro x hx
      exact hpermKeys.subset (hsubl.subset (List.mem_map_of_mem Prod.fst hx))
    have hpksorted : List.Sorted rStr ((pull_items A B).map Prod.fst) := by
      rw [pull_items_keys]
      exact List.sorted_insertionSort rStr _
    have hpknodup : ((pull_items A B).map Prod.fst).Nodup := by
      rw [pull_items_keys]
      exact ((List.perm_insertionSort rStr _).nodup_iff).mpr (dedupKeys_nodup _)
    have hdisj : List.Disjoint (items.map Prod.fst) ((pull_items A B).map Prod.fst) := by
      intro a ha hb
      obtain ⟨x, hx, rfl⟩ := List.mem_map.mp ha
      obtain ⟨y, hy, hxy⟩ := List.mem_map.mp hb
      have := (pull_items_mem hy).1
      rw [hxy] at this
      exact this (hl1keys x hx)
    refine ⟨?_, items, pull_items A B, rfl, hl1sorted, hpksorted, hl1keys,
      fun x hx => pull_items_mem hx⟩
    rw [List.map_append]
    exact hl1nodup.append hpknodup hdisj

/-- C2, witness for the amended theorem: local `{b}`, remote `{a}`. -/
theorem C2_amended_witness :
    (([("b", stat0)].map (Prod.fst (β := Stat))).Nodup ∧
      compute ⟨false, false, 0⟩ hash0 hash0 [("b", stat0)] [("a", stat0)] =
        Except.ok [("b", Witness.one stat0, some "push", "remote file does not exist"),
          ("a", Witness.one stat0, some "pull", "local file does not exist")]) ∧
    ((([("b", Witness.one stat0, some "push", "remote file does not exist"),
        ("a", Witness.one stat0, some "pull", "local file does not exist")] :
          List DItem).map Prod.fst).Nodup ∧
      ∃ l1 l2,
        ([("b", Witness.one stat0, some "push", "remote file does not exist"),
          ("a", Witness.one stat0, some "pull", "local file does not exist")] :
            List DItem) = l1 ++ l2 ∧
        List.Sorted rStr (l1.map Prod.fst) ∧
        List.Sorted rStr (l2.map Prod.fst) ∧
        (∀ x ∈ l1, x.1 ∈ [("b", stat0)].map (Prod.fst (β := Stat))) ∧
        (∀ x ∈ l2, x.1 ∉ [("b", stat0)].map (Prod.fst (β := Stat)) ∧
          x.2.2.1 = some "pull")) :=
  ⟨⟨by simp, rfl⟩,
    C2_amended_structure ⟨false, false, 0⟩ hash0 hash0 [("b", stat0)] [("a", stat0)] _
      (by simp) rfl⟩

/-! ## C7: swapping the two sides of a diff -/

/-- The `push`/`pull` exchange induced by swapping the two sides; all other
operations are their own mirror image. -/
def swapOp (op : Option String) : Option String :=
  if op = some "push" then some "pull"
  else if op = some "pull" then some "push"
  else op

theorem swapOp_swapOp (op : Option String) : swapOp (swapOp op) = op := by
  unfold swapOp
  split_ifs with h1 h2 h3 h4 h5 <;> simp_all

theorem swapOp_eq_iff (op x : Option String) : swapOp op = x ↔ op = swapOp x := by
  constructor
  · intro h
    rw [← h, swapOp_swapOp]
  · intro h
    rw [h, swapOp_swapOp]

/-- Python `int()` is an odd function. -/
theorem pyInt_neg (q : ℚ) : pyInt (-q) = -pyInt q := by
  unfold pyInt
  rcases lt_trichotomy q 0 with h | h | h
  · rw [if_neg (not_le.mpr h), if_pos (by linarith), Int.floor_neg]
  · subst h
    simp
  · rw [if_pos h.le, if_neg (by simpa using h), Int.ceil_neg]

/-- Swapping the two stats flips the sign of the (windowed) time
difference. -/
theorem diff_time_swap (o : DiffOpts) (sL sR : Stat) :
    diff_time o sR sL = -diff_time o sL sR := by
  unfold diff_time
  have h : sR.mtime - sL.mtime = -(sL.mtime - sR.mtime) := by ring
  rw [h, pyInt_neg, abs_neg]
  split_ifs <;> simp

/-- Under swapping, the time verdict exchanges `push` and `pull`. -/
theorem time_cmp_op_swap (o : DiffOpts) (sL sR : Stat) :
    (time_cmp o sR sL).2.1 = swapOp ((time_cmp o sL sR).2.1) := by
  have hswap : diff_time o sR sL = -diff_time o sL sR := diff_time_swap o sL sR
  unfold time_cmp
  rcases lt_trichotomy (diff_time o sL sR) 0 with h | h | h
  · rw [if_pos h, if_neg (by omega : ¬diff_time o sR sL < 0),
      if_pos (by omega : 0 < diff_time o sR sL)]
    rfl
  · rw [if_neg (by omega : ¬diff_time o sL sR < 0),
      if_neg (by omega : ¬(0 : ℤ) < diff_time o sL sR),
      if_neg (by omega : ¬diff_time o sR sL < 0),
      if_neg (by omega : ¬(0 : ℤ) < diff_time o sR sL)]
    rfl
  · rw [if_neg (by omega : ¬diff_time o sL sR < 0), if_pos h,
      if_pos (by omega : diff_time o sR sL < 0)]
    rfl

/-- Evaluation of `_compare_stats`: both entries are directories. -/
theorem compare_stats_eval_dirs (o : DiffOpts) (hL hR : String → String)
    (sL sR : Stat) (f : String) (hdd : sL.kind = FType.d ∧ sR.kind = FType.d) :
    compare_stats o hL hR sL sR f = Except.ok none := by
  unfold compare_stats
  rw [if_pos hdd]

/-- Evaluation of `_compare_stats`: the early time return (lines 565-566). -/
theorem compare_stats_eval_time (o : DiffOpts) (hL hR : String → String)
    (sL sR : Stat) (f : String)
    (hdd : ¬(sL.kind = FType.d ∧ sR.kind = FType.d))
    (hit : o.ignore_time = false ∧ diff_time o sL sR ≠ 0) :
    compare_stats o hL hR sL sR f = Except.ok (some (time_cmp o sL sR)) := by
  unfold compare_stats
  rw [if_neg hdd, if_pos hit]

/-- Evaluation of `_compare_stats`: the type branch (lines 567-573). -/
theorem compare_stats_eval_type (o : DiffOpts) (hL hR : String → String)
    (sL sR : Stat) (f : String)
    (hdd : ¬(sL.kind = FType.d ∧ sR.kind = FType.d))
    (hit : ¬(o.ignore_time = false ∧ diff_time o sL sR ≠ 0))
    (hk : sL.kind ≠ sR.kind) :
    compare_stats o hL hR sL sR f = Except.ok (some ((time_cmp o sL sR).1,
      (if diff_time o sL sR ≠ 0 then (time_cmp o sL sR).2.1 else some "type"),
      "files have different types (local: " ++ file_types sL.kind ++
        ", remote: " ++ file_types sR.kind ++ "); " ++
        (time_cmp o sL sR).2.2)) := by
  unfold compare_stats
  rw [if_neg hdd, if_neg hit, if_pos (ordF_sub_ne_zero sL.kind sR.kind hk)]

/-- Evaluation of `_compare_stats`: the crashing size branch (lines
574-579). -/
theorem compare_stats_eval_size (o : DiffOpts) (hL hR : String → String)
    (sL sR : Stat) (f : String)
    (hdd : ¬(sL.kind = FType.d ∧ sR.kind = FType.d))
    (hit : ¬(o.ignore_time = false ∧ diff_time o sL sR ≠ 0))
    (hk : sL.kind = sR.kind) (hsz : sL.size - sR.size ≠ 0) :
    compare_stats o hL hR sL sR f =
      Except.error "UnboundLocalError: local variable file_types referenced before assignment" := by
  unfold compare_stats
  rw [if_neg hdd, if_neg hit,
    if_neg (by rw [hk]; simp : ¬ordF sL.kind - ordF sR.kind ≠ 0), if_pos hsz]

/-- Evaluation of `_compare_stats`: the content branch with differing
hashes (lines 580-593). -/
theorem compare_stats_eval_content (o : DiffOpts) (hL hR : String → String)
    (sL sR : Stat) (f : String)
    (hdd : ¬(sL.kind = FType.d ∧ sR.kind = FType.d))
    (hit : ¬(o.ignore_time = false ∧ diff_time o sL sR ≠ 0))
    (hk : sL.kind = sR.kind) (hsz : ¬sL.size - sR.size ≠ 0)
    (hc : o.content = true) (hh : hL f ≠ hR f) :
    compare_stats o hL hR sL sR f = Except.ok (some ((time_cmp o sL sR).1,
      (if diff_time o sL sR ≠ 0 then (time_cmp o sL sR).2.1 else some "content"),
      "files have different content; " ++ (time_cmp o sL sR).2.2 ++
        "\n    local file hash:  " ++ hL f ++
        "\n    remote file hash: " ++ hR f)) := by
  unfold compare_stats
  rw [if_neg hdd, if_neg hit,
    if_neg (by rw [hk]; simp : ¬ordF sL.kind - ordF sR.kind ≠ 0), if_neg hsz,
    if_pos hc, if_pos hh]

/-- Evaluation of `_compare_stats`: no difference found (line 594). -/
theorem compare_stats_eval_none (o : DiffOpts) (hL hR : String → String)
    (sL sR : Stat) (f : String)
    (hdd : ¬(sL.kind = FType.d ∧ sR.kind = FType.d))
    (hit : ¬(o.ignore_time = false ∧ diff_time o sL sR ≠ 0))
    (hk : sL.kind = sR.kind) (hsz : ¬sL.size - sR.size ≠ 0)
    (hch : ¬(o.content = true ∧ hL f ≠ hR f)) :
    compare_stats o hL hR sL sR f = Except.ok none := by
  unfold compare_stats
  rw [if_neg hdd, if_neg hit,
    if_neg (by rw [hk]; simp : ¬ordF sL.kind - ordF sR.kind ≠ 0), if_neg hsz]
  by_cases hc : o.content = true
  · rw [if_pos hc, if_neg (fun hh => hch ⟨hc, hh⟩)]
  · rw [if_neg hc]

/-- The three mirror statements, packaged for two `Except.ok (some _)`
results whose operations are exchanged by `swapOp`. -/
theorem swap_conjuncts_of_some (x y : CmpItem) (hxy : x.2.1 = swapOp y.2.1) :
    ((Except.ok (some x) : Except String (Option CmpItem)) = Except.ok none ↔
      (Except.ok (some y) : Except String (Option CmpItem)) = Except.ok none) ∧
    (∀ e, (Except.ok (some x) : Except String (Option CmpItem)) = Except.error e ↔
      (Except.ok (some y) : Except String (Option CmpItem)) = Except.error e) ∧
    (∀ op, (∃ w r, (Except.ok (some x) : Except String (Option CmpItem)) =
        Except.ok (some (w, op, r))) ↔
      (∃ w r, (Except.ok (some y) : Except String (Option CmpItem)) =
        Except.ok (some (w, swapOp op, r)))) := by
  refine ⟨by simp, by simp, fun op => ?_⟩
  constructor
  · rintro ⟨w, r, h⟩
    simp only [Except.ok.injEq, Option.some.injEq] at h
    have hop : op = x.2.1 := by rw [h]
    refine ⟨y.1, y.2.2, ?_⟩
    have hso : swapOp op = y.2.1 := by rw [hop, hxy, swapOp_swapOp]
    rw [hso]
  · rintro ⟨w, r, h⟩
    simp only [Except.ok.injEq, Option.some.injEq] at h
    have hop : swapOp op = y.2.1 := by rw [h]
    refine ⟨x.1, x.2.2, ?_⟩
    have hso : op = x.2.1 := by
      rw [hxy, ← hop, swapOp_swapOp]
    rw [hso]

/-- Swapping the argument order of `_compare_stats` (and the hash oracles
with it) mirrors the outcome: equal results in the `None` and exception
cases, and items whose operation is exchanged through `swapOp`. -/
theorem compare_stats_swap (o : DiffOpts) (hA hB : String → String)
    (sL sR : Stat) (f : String) :
    (compare_stats o hB hA sR sL f = Except.ok none ↔
      compare_stats o hA hB sL sR f = Except.ok none) ∧
    (∀ e, compare_stats o hB hA sR sL f = Except.error e ↔
      compare_stats o hA hB sL sR f = Except.error e) ∧
    (∀ op, (∃ w r, compare_stats o hB hA sR sL f = Except.ok (some (w, op, r))) ↔
      (∃ w r, compare_stats o hA hB sL sR f = Except.ok (some (w, swapOp op, r)))) := by
  have hops := time_cmp_op_swap o sL sR
  have hswap : diff_time o sR sL = -diff_time o sL sR := diff_time_swap o sL sR
  by_cases hdd : sL.kind = FType.d ∧ sR.kind = FType.d
  · have hdd' : sR.kind = FType.d ∧ sL.kind = FType.d := ⟨hdd.2, hdd.1⟩
    rw [compare_stats_eval_dirs o hA hB sL sR f hdd,
      compare_stats_eval_dirs o hB hA sR sL f hdd']
    exact ⟨by simp, by simp, by simp⟩
  · have hdd' : ¬(sR.kind = FType.d ∧ sL.kind = FType.d) := fun h => hdd ⟨h.2, h.1⟩
    by_cases hit : o.ignore_time = false ∧ diff_time o sL sR ≠ 0
    · have hit' : o.ignore_time = false ∧ diff_time o sR sL ≠ 0 :=
        ⟨hit.1, by rw [hswap]; simpa using hit.2⟩
      rw [compare_stats_eval_time o hA hB sL sR f hdd hit,
        compare_stats_eval_time o hB hA sR sL f hdd' hit']
      exact swap_conjuncts_of_some _ _ hops
    · have hit' : ¬(o.ignore_time = false ∧ diff_time o sR sL ≠ 0) := by
        rw [hswap]
        intro h
        exact hit ⟨h.1, by simpa using h.2⟩
      have hdtiff : (diff_time o sR sL ≠ 0) = (diff_time o sL sR ≠ 0) := by
        rw [hswap]
        simp
      by_cases hk : sL.kind = sR.kind
      · by_cases hsz : sL.size - sR.size ≠ 0
        · have hsz' : sR.size - sL.size ≠ 0 := by omega
          rw [compare_stats_eval_size o hA hB sL sR f hdd hit hk hsz,
            compare_stats_eval_size o hB hA sR sL f hdd' hit' hk.symm hsz']
          exact ⟨by simp, by simp, by simp⟩
        · have hsz' : ¬sR.size - sL.size ≠ 0 := by omega
          by_cases hch : o.content = true ∧ hA f ≠ hB f
          · have hch' : hB f ≠ hA f := fun h => hch.2 h.symm
            rw [compare_stats_eval_content o hA hB sL sR f hdd hit hk hsz hch.1 hch.2,
              compare_stats_eval_content o hB hA sR sL f hdd' hit' hk.symm hsz' hch.1 hch']
            apply swap_conjuncts_of_some
            simp only [hdtiff]
            by_cases hdt : diff_time o sL sR ≠ 0
            · rw [if_pos hdt, if_pos hdt]
              exact hops
            · rw [if_neg hdt, if_neg hdt]
              decide
          · have hch2 : ¬(o.content = true ∧ hB f ≠ hA f) := fun h =>
              hch ⟨h.1, fun he => h.2 he.symm⟩
            rw [compare_stats_eval_none o hA hB sL sR f hdd hit hk hsz hch,
              compare_stats_eval_none o hB hA sR sL f hdd' hit' hk.symm hsz' hch2]
            exact ⟨by simp, by simp, by simp⟩
      · have hk' : sR.kind ≠ sL.kind := fun h => hk h.symm
        rw [compare_stats_eval_type o hA hB sL sR f hdd hit hk,
          compare_stats_eval_type o hB hA sR sL f hdd' hit' hk']
        apply swap_conjuncts_of_some
        simp only [hdtiff]
        by_cases hdt : diff_time o sL sR ≠ 0
        · rw [if_pos hdt, if_pos hdt]
          exact hops
        · rw [if_neg hdt, if_neg hdt]
          decide

/-- Looking a key up in a duplicate-free dictionary is the same as pair
membership. -/
theorem lookup_some_iff {β} (l : List (String × β)) (hl : (l.map Prod.fst).Nodup)
    (k : String) (v : β) :
    l.lookup k = some v ↔ (k, v) ∈ l := by
  induction l with
  | nil => simp [List.lookup]
  | cons p rest ih =>
    obtain ⟨a, b⟩ := p
    simp only [List.map_cons, List.nodup_cons] at hl
    by_cases h : k = a
    · subst h
      have hlk : ((k, b) :: rest).lookup k = some b := by simp [List.lookup]
      rw [hlk]
      constructor
      · intro hv
        simp only [Option.some.injEq] at hv
        subst hv
        exact List.mem_cons_self _ _
      · intro hv
        rcases List.mem_cons.mp hv with h1 | h1
        · simp only [Prod.mk.injEq] at h1
          rw [h1.2]
        · exact absurd (List.mem_map_of_mem Prod.fst h1) hl.1
    · have hlk : ((a, b) :: rest).lookup k = rest.lookup k := by
        simp [List.lookup, beq_false_of_ne h]
      rw [hlk, ih hl.2]
      constructor
      · exact fun hm => List.mem_cons_of_mem _ hm
      · intro hv
        rcases List.mem_cons.mp hv with h1 | h1
        · exact absurd (congrArg Prod.fst h1) (by simpa using h)
        · exact h1

/-- Membership in the local-loop items, characterised by the two lookups
(lines 506-516). -/
theorem compute_core_mem (o : DiffOpts) (hL hR : String → String)
    (sr : List (String × Stat)) :
    ∀ (sl : List (String × Stat)) (items : List DItem),
      compute_core o hL hR sr sl = Except.ok items →
      ∀ (f : String) (c : CmpItem),
        ((f, c) ∈ items ↔
          (∃ s, (f, s) ∈ sl ∧ sr.lookup f = none ∧
            c = (Witness.one s, some "push", "remote file does not exist")) ∨
          (∃ s s2, (f, s) ∈ sl ∧ sr.lookup f = some s2 ∧
            compare_stats o hL hR s s2 f = Except.ok (some c))) := by
  intro sl
  induction sl with
  | nil =>
    intro items h f c
    simp only [compute_core, Except.ok.injEq] at h
    subst h
    simp
  | cons p rest ih =>
    intro items h f c
    obtain ⟨g, sg⟩ := p
    simp only [compute_core] at h
    cases hlk : sr.lookup g with
    | some s2 =>
      simp only [hlk] at h
      cases hc : compare_stats o hL hR sg s2 g with
      | error e =>
        simp only [hc] at h
        exact Except.noConfusion h
      | ok oc =>
        simp only [hc] at h
        cases oc with
        | none =>
          rw [ih items h f c]
          constructor
          · rintro (⟨s, hs, hnone, hceq⟩ | ⟨s, s2x, hs, hsome, hcmp⟩)
            · exact Or.inl ⟨s, List.mem_cons_of_mem _ hs, hnone, hceq⟩
            · exact Or.inr ⟨s, s2x, List.mem_cons_of_mem _ hs, hsome, hcmp⟩
          · rintro (⟨s, hs, hnone, hceq⟩ | ⟨s, s2x, hs, hsome, hcmp⟩)
            · rcases List.mem_cons.mp hs with heq | hmem
              · simp only [Prod.mk.injEq] at heq
                rw [heq.1] at hnone
                rw [hnone] at hlk
                exact Option.noConfusion hlk
              · exact Or.inl ⟨s, hmem, hnone, hceq⟩
            · rcases List.mem_cons.mp hs with heq | hmem
              · simp only [Prod.mk.injEq] at heq
                obtain ⟨h1, h2⟩ := heq
                subst h1
                subst h2
                rw [hlk] at hsome
                simp only [Option.some.injEq] at hsome
                subst hsome
                rw [hc] at hcmp
                simp only [Except.ok.injEq] at hcmp
                exact Option.noConfusion hcmp
              · exact Or.inr ⟨s, s2x, hmem, hsome, hcmp⟩
        | some cmp =>
          cases hrest : compute_core o hL hR sr rest with
          | error e =>
            simp only [hrest] at h
            exact Except.noConfusion h
          | ok tailItems =>
            simp only [hrest, Except.ok.injEq] at h
            subst h
            rw [List.mem_cons, ih tailItems hrest f c]
            constructor
            · rintro (heq | (⟨s, hs, hnone, hceq⟩ | ⟨s, s2x, hs, hsome, hcmp⟩))
              · simp only [Prod.mk.injEq] at heq
                obtain ⟨h1, h2⟩ := heq
                subst h1
                subst h2
                exact Or.inr ⟨sg, s2, List.mem_cons_self _ _, hlk, hc⟩
              · exact Or.inl ⟨s, List.mem_cons_of_mem _ hs, hnone, hceq⟩
              · exact Or.inr ⟨s, s2x, List.mem_cons_of_mem _ hs, hsome, hcmp⟩
            · rintro (⟨s, hs, hnone, hceq⟩ | ⟨s, s2x, hs, hsome, hcmp⟩)
              · rcases List.mem_cons.mp hs with heq | hmem
                · simp only [Prod.mk.injEq] at heq
                  rw [heq.1] at hnone
                  rw [hnone] at hlk
                  exact Option.noConfusion hlk
                · exact Or.inr (Or.inl ⟨s, hmem, hnone, hceq⟩)
              · rcases List.mem_cons.mp hs with heq | hmem
                · simp only [Prod.mk.injEq] at heq
                  obtain ⟨h1, h2⟩ := heq
                  subst h1
                  subst h2
                  rw [hlk] at hsome
                  simp only [Option.some.injEq] at hsome
                  subst hsome
                  rw [hc] at hcmp
                  simp only [Except.ok.injEq, Option.some.injEq] at hcmp
                  exact Or.inl (by rw [hcmp])
                · exact Or.inr (Or.inr ⟨s, s2x, hmem, hsome, hcmp⟩)
    | none =>
      simp only [hlk] at h
      cases hrest : compute_core o hL hR sr rest with
      | error e =>
        simp only [hrest] at h
        exact Except.noConfusion h
      | ok tailItems =>
        simp only [hrest, Except.ok.injEq] at h
        subst h
        rw [List.mem_cons, ih tailItems hrest f c]
        constructor
        · rintro (heq | (⟨s, hs, hnone, hceq⟩ | ⟨s, s2x, hs, hsome, hcmp⟩))
          · simp only [Prod.mk.injEq] at heq
            obtain ⟨h1, h2⟩ := heq
            subst h1
            exact Or.inl ⟨sg, List.mem_cons_self _ _, hlk, h2⟩
          · exact Or.inl ⟨s, List.mem_cons_of_mem _ hs, hnone, hceq⟩
          · exact Or.inr ⟨s, s2x, List.mem_cons_of_mem _ hs, hsome, hcmp⟩
        · rintro (⟨s, hs, hnone, hceq⟩ | ⟨s, s2x, hs, hsome, hcmp⟩)
          · rcases List.mem_cons.mp hs with heq | hmem
            · simp only [Prod.mk.injEq] at heq
              obtain ⟨h1, h2⟩ := heq
              subst h1
              subst h2
              exact Or.inl (by rw [hceq])
            · exact Or.inr (Or.inl ⟨s, hmem, hnone, hceq⟩)
          · rcases List.mem_cons.mp hs with heq | hmem
            · simp only [Prod.mk.injEq] at heq
              rw [heq.1] at hsome
              rw [hsome] at hlk
              exact Option.noConfusion hlk
            · exact Or.inr (Or.inr ⟨s, s2x, hmem, hsome, hcmp⟩)

theorem mem_dedupKeys_iff {l : List String} {a : String} :
    a ∈ dedupKeys l ↔ a ∈ l := by
  constructor
  · exact mem_dedupKeys
  · intro h
    induction l with
    | nil => cases h
    | cons b bs ih =>
      by_cases hb : b ∈ bs
      · rw [show dedupKeys (b :: bs) = dedupKeys bs from by simp [dedupKeys, hb]]
        rcases List.mem_cons.mp h with h1 | h1
        · exact ih (h1 ▸ hb)
        · exact ih h1
      · rw [show dedupKeys (b :: bs) = b :: dedupKeys bs from by simp [dedupKeys, hb]]
        rcases List.mem_cons.mp h with h1 | h1
        · exact h1 ▸ List.mem_cons_self _ _
        · exact List.mem_cons_of_mem _ (ih h1)

/-- Membership in the `pull` block, characterised by the two lookups. -/
theorem pull_items_mem_iff (A B : List (String × Stat)) (f : String) (c : CmpItem) :
    (f, c) ∈ pull_items A B ↔
      A.lookup f = none ∧ ∃ s2, B.lookup f = some s2 ∧
        c = (Witness.one s2, some "pull", "local file does not exist") := by
  unfold pull_items
  rw [List.mem_map]
  constructor
  · rintro ⟨g, hg, heq⟩
    simp only [Prod.mk.injEq] at heq
    obtain ⟨h1, h2⟩ := heq
    subst h1
    have hmem := mem_dedupKeys ((List.perm_insertionSort rStr _).subset hg)
    have h3 := List.mem_filter.mp hmem
    have hnone : A.lookup g = none := Option.isNone_iff_eq_none.mp h3.2
    have hkey : g ∈ B.map Prod.fst := h3.1
    have hne : B.lookup g ≠ none := fun hn => ((lookup_none_iff B g).mp hn) hkey
    obtain ⟨s2, hs2⟩ := Option.ne_none_iff_exists'.mp hne
    refine ⟨hnone, s2, hs2, ?_⟩
    rw [← h2, hs2]
    rfl
  · rintro ⟨hnone, s2, hs2, hceq⟩
    refine ⟨f, ?_, ?_⟩
    · apply (List.perm_insertionSort rStr _).mem_iff.mpr
      apply mem_dedupKeys_iff.mpr
      apply List.mem_filter.mpr
      constructor
      · by_contra hcon
        rw [(lookup_none_iff B f).mpr hcon] at hs2
        exact Option.noConfusion hs2
      · simp [hnone]
    · rw [hs2, hceq]
      rfl

/-- Membership in the full diff list (lines 501-522), characterised by the
two lookups: a `push` item for local-only paths, a comparison item for
shared paths, a `pull` item for remote-only paths. -/
theorem compute_mem_iff (o : DiffOpts) (hL hR : String → String)
    (A B : List (String × Stat)) (l : List DItem)
    (hAnd : (A.map Prod.fst).Nodup)
    (h : compute o hL hR A B = Except.ok l)
    (f : String) (c : CmpItem) :
    (f, c) ∈ l ↔
      ((∃ s, A.lookup f = some s ∧ B.lookup f = none ∧
        c = (Witness.one s, some "push", "remote file does not exist")) ∨
      (∃ s s2, A.lookup f = some s ∧ B.lookup f = some s2 ∧
        compare_stats o hL hR s s2 f = Except.ok (some c)) ∨
      (A.lookup f = none ∧ ∃ s2, B.lookup f = some s2 ∧
        c = (Witness.one s2, some "pull", "local file does not exist"))) := by
  simp only [compute] at h
  cases hc : compute_core o hL hR B (sortPairs A) with
  | error e =>
    rw [hc] at h
    exact Except.noConfusion h
  | ok items =>
    rw [hc] at h
    simp only [Except.ok.injEq] at h
    subst h
    rw [List.mem_append, compute_core_mem o hL hR B (sortPairs A) items hc f c,
      pull_items_mem_iff A B f c]
    have hmemA : ∀ s : Stat, (f, s) ∈ sortPairs A ↔ A.lookup f = some s := by
      intro s
      simp only [sortPairs]
      rw [(List.perm_insertionSort rPair A).mem_iff]
      exact (lookup_some_iff A hAnd f s).symm
    constructor
    · rintro ((⟨s, hs, hnone, hceq⟩ | ⟨s, s2, hs, hsome, hcmp⟩) | hpull)
      · exact Or.inl ⟨s, (hmemA s).mp hs, hnone, hceq⟩
      · exact Or.inr (Or.inl ⟨s, s2, (hmemA s).mp hs, hsome, hcmp⟩)
      · exact Or.inr (Or.inr hpull)
    · rintro (⟨s, hs, hnone, hceq⟩ | ⟨s, s2, hs, hsome, hcmp⟩ | hpull)
      · exact Or.inl (Or.inl ⟨s, (hmemA s).mpr hs, hnone, hceq⟩)
      · exact Or.inl (Or.inr ⟨s, s2, (hmemA s).mpr hs, hsome, hcmp⟩)
      · exact Or.inr hpull

/-- One direction of the C7 mirror: any item of `diff(A, B)` has a partner
with the swapped operation in `diff(B, A)`. -/
theorem compute_swap_forward (o : DiffOpts) (hA hB : String → String)
    (A B : List (String × Stat)) (l l2 : List DItem)
    (hAnd : (A.map Prod.fst).Nodup) (hBnd : (B.map Prod.fst).Nodup)
    (h : compute o hA hB A B = Except.ok l)
    (h2 : compute o hB hA B A = Except.ok l2)
    (f : String) (op : Option String) :
    (∃ w r, (f, w, op, r) ∈ l) → (∃ w r, (f, w, swapOp op, r) ∈ l2) := by
  rintro ⟨w, r, hw⟩
  rcases (compute_mem_iff o hA hB A B l hAnd h f (w, op, r)).mp hw with
    ⟨s, ha, hb, hceq⟩ | ⟨s, s2, ha, hb, hcmp⟩ | ⟨ha, s2, hb, hceq⟩
  · simp only [Prod.mk.injEq] at hceq
    obtain ⟨hc1, hc2, hc3⟩ := hceq
    subst hc2
    refine ⟨Witness.one s, "local file does not exist", ?_⟩
    apply (compute_mem_iff o hB hA B A l2 hBnd h2 f _).mpr
    refine Or.inr (Or.inr ⟨hb, s, ha, ?_⟩)
    rw [show swapOp (some "push") = some "pull" from rfl]
  · have hpart := (compare_stats_swap o hA hB s s2 f).2.2 (swapOp op)
    have hx : ∃ w r, compare_stats o hA hB s s2 f =
        Except.ok (some (w, swapOp (swapOp op), r)) := by
      rw [swapOp_swapOp]
      exact ⟨w, r, hcmp⟩
    obtain ⟨w2, r2, hcmp2⟩ := hpart.mpr hx
    refine ⟨w2, r2, ?_⟩
    apply (compute_mem_iff o hB hA B A l2 hBnd h2 f _).mpr
    exact Or.inr (Or.inl ⟨s2, s, hb, ha, hcmp2⟩)
  · simp only [Prod.mk.injEq] at hceq
    obtain ⟨hc1, hc2, hc3⟩ := hceq
    subst hc2
    refine ⟨Witness.one s2, "remote file does not exist", ?_⟩
    apply (compute_mem_iff o hB hA B A l2 hBnd h2 f _).mpr
    refine Or.inl ⟨s2, hb, ha, ?_⟩
    rw [show swapOp (some "pull") = some "push" from rfl]

theorem mem_keys_iff (l : List DItem) (f : String) :
    f ∈ l.map Prod.fst ↔ ∃ c : CmpItem, (f, c) ∈ l := by
  rw [List.mem_map]
  constructor
  · rintro ⟨x, hx, rfl⟩
    exact ⟨x.2, hx⟩
  · rintro ⟨c, hc⟩
    exact ⟨(f, c), hc, rfl⟩

/-- C7: swapping the two entry maps (with their hash oracles) yields a diff
list over exactly the same paths, with `push` and `pull` items exchanged
and `content`/`type`/`size` items preserved (the operation map `swapOp`
exchanges `push` and `pull` and fixes everything else). -/
theorem C7_diff_swap (o : DiffOpts) (hA hB : String → String)
    (A B : List (String × Stat)) (l l2 : List DItem)
    (hAnd : (A.map Prod.fst).Nodup) (hBnd : (B.map Prod.fst).Nodup)
    (h : compute o hA hB A B = Except.ok l)
    (h2 : compute o hB hA B A = Except.ok l2) :
    (∀ f op, (∃ w r, (f, w, op, r) ∈ l) ↔ (∃ w r, (f, w, swapOp op, r) ∈ l2)) ∧
    (∀ f, f ∈ l.map Prod.fst ↔ f ∈ l2.map Prod.fst) ∧
    swapOp (some "push") = some "pull" ∧ swapOp (some "pull") = some "push" ∧
    swapOp (some "content") = some "content" ∧
    swapOp (some "type") = some "type" ∧ swapOp (some "size") = some "size" := by
  have hfwd := compute_swap_forward o hA hB A B l l2 hAnd hBnd h h2
  have hbwd := compute_swap_forward o hB hA B A l2 l hBnd hAnd h2 h
  have hop : ∀ f op, (∃ w r, (f, w, op, r) ∈ l) ↔ (∃ w r, (f, w, swapOp op, r) ∈ l2) := by
    intro f op
    constructor
    · exact hfwd f op
    · intro hx
      have := hbwd f (swapOp op) hx
      rwa [swapOp_swapOp] at this
  refine ⟨hop, ?_, rfl, rfl, rfl, rfl, rfl⟩
  intro f
  rw [mem_keys_iff, mem_keys_iff]
  constructor
  · rintro ⟨⟨w, op, r⟩, hc⟩
    obtain ⟨w2, r2, h2c⟩ := (hop f op).mp ⟨w, r, hc⟩
    exact ⟨(w2, swapOp op, r2), h2c⟩
  · rintro ⟨⟨w, op, r⟩, hc⟩
    obtain ⟨w2, r2, h2c⟩ := (hop f (swapOp op)).mpr (by
      rw [swapOp_swapOp]
      exact ⟨w, r, hc⟩)
    exact ⟨(w2, swapOp op, r2), h2c⟩

/-- C7, witness: local `{b}` against remote `{a}` in both orders. -/
theorem C7_diff_swap_witness :
    (([("b", stat0)].map (Prod.fst (β := Stat))).Nodup ∧
      ([("a", stat0)].map (Prod.fst (β := Stat))).Nodup ∧
      compute ⟨false, false, 0⟩ hash0 hash0 [("b", stat0)] [("a", stat0)] =
        Except.ok [("b", Witness.one stat0, some "push", "remote file does not exist"),
          ("a", Witness.one stat0, some "pull", "local file does not exist")] ∧
      compute ⟨false, false, 0⟩ hash0 hash0 [("a", stat0)] [("b", stat0)] =
        Except.ok [("a", Witness.one stat0, some "push", "remote file does not exist"),
          ("b", Witness.one stat0, some "pull", "local file does not exist")]) ∧
    ((∀ f op, (∃ w r, (f, w, op, r) ∈
        ([("b", Witness.one stat0, some "push", "remote file does not exist"),
          ("a", Witness.one stat0, some "pull", "local file does not exist")] :
            List DItem)) ↔
      (∃ w r, (f, w, swapOp op, r) ∈
        ([("a", Witness.one stat0, some "push", "remote file does not exist"),
          ("b", Witness.one stat0, some "pull", "local file does not exist")] :
            List DItem))) ∧
    (∀ f, f ∈ ([("b", Witness.one stat0, some "push", "remote file does not exist"),
        ("a", Witness.one stat0, some "pull", "local file does not exist")] :
          List DItem).map Prod.fst ↔
      f ∈ ([("a", Witness.one stat0, some "push", "remote file does not exist"),
        ("b", Witness.one stat0, some "pull", "local file does not exist")] :
          List DItem).map Prod.fst) ∧
    swapOp (some "push") = some "pull" ∧ swapOp (some "pull") = some "push" ∧
    swapOp (some "content") = some "content" ∧
    swapOp (some "type") = some "type" ∧ swapOp (some "size") = some "size") :=
  ⟨⟨by simp, by simp, rfl, rfl⟩,
    C7_diff_swap ⟨false, false, 0⟩ hash0 hash0 [("b", stat0)] [("a", stat0)] _ _
      (by simp) (by simp) rfl rfl⟩

/-! ## Pattern matching: `fnmatch` and the `match` helper of
`Repo._ignore_files` (lines 343-356)

The repository matches patterns with `fnmatch.fnmatch`, whose translation
to a regular expression gives `*` ↦ `.*`, `?` ↦ `.` (both with the DOTALL
flag, so they also match `/`), character classes `[...]` ↦ themselves, an
unterminated `[` ↦ a literal `[`, and every other character ↦ a literal
(`os.path.normcase` is the identity on POSIX). -/

/-- A token of a translated `fnmatch` pattern. -/
inductive GlobTok where
  | star : GlobTok
  | any : GlobTok
  | cls : Bool → List (Char × Char) → GlobTok
  | lit : Char → GlobTok
deriving DecidableEq, Repr

/-- Items of a character class: singletons and `a-b` ranges, following the
regular expression that `fnmatch.translate` emits (a trailing or leading
`-` is a literal).  For an inverted range `a-b` with `b < a` Python's `re`
would reject the whole pattern; here such a range simply matches
nothing. -/
def parseItems : List Char → List (Char × Char)
  | a :: '-' :: b :: rest => (a, b) :: parseItems rest
  | a :: rest => (a, a) :: parseItems rest
  | [] => []

/-- Scan up to the closing `]` of a character class: the scanned body and
the remainder after `]`, or `none` when no `]` follows. -/
def findRB : List Char → Option (List Char × List Char)
  | [] => none
  | c :: r =>
    if c = ']' then some ([], r)
    else
      match findRB r with
      | none => none
      | some (body, rest) => some (c :: body, rest)

/-- The body of a class after the optional leading `!`: a leading `]` is
part of the body (`fnmatch.translate` skips it before scanning for the
closing `]`). -/
def splitClassAux (l1 : List Char) : Option (List Char × List Char) :=
  match l1 with
  | [] => none
  | c :: r =>
    if c = ']' then
      match findRB r with
      | none => none
      | some (body, rest) => some (']' :: body, rest)
    else
      findRB l1

/-- The optional negation `!` and the class body, as scanned by
`fnmatch.translate`; `none` when the class is unterminated. -/
def splitClass (l : List Char) : Option (Bool × List Char × List Char) :=
  match l with
  | [] => none
  | c :: r =>
    if c = '!' then
      match splitClassAux r with
      | none => none
      | some (body, rest) => some (true, body, rest)
    else
      match splitClassAux l with
      | none => none
      | some (body, rest) => some (false, body, rest)

/-- Tokenizer worker.  The fuel only bounds the recursion (every step
consumes at least one character, and `splitClass` never lengthens the
remainder, so `globLex` below always supplies enough); it makes the
function structurally recursive and hence computable by the kernel. -/
def globLexFuel : Nat → List Char → List GlobTok
  | _, [] => []
  | 0, _ :: _ => []
  | fuel + 1, c :: rest =>
    if c = '*' then GlobTok.star :: globLexFuel fuel rest
    else if c = '?' then GlobTok.any :: globLexFuel fuel rest
    else if c = '[' then
      match splitClass rest with
      | some (neg, body, r3) => GlobTok.cls neg (parseItems body) :: globLexFuel fuel r3
      | none => GlobTok.lit '[' :: globLexFuel fuel rest
    else GlobTok.lit c :: globLexFuel fuel rest

/-- Tokenize an `fnmatch` pattern, following `fnmatch.translate`. -/
def globLex (l : List Char) : List GlobTok := globLexFuel l.length l

/-- Does character `c` belong to the (possibly negated) class? -/
def matchClass (neg : Bool) (items : List (Char × Char)) (c : Char) : Bool :=
  let inSet := items.any (fun p => decide (p.1 ≤ c) && decide (c ≤ p.2))
  if neg then !inSet else inSet

/-- All suffixes of a character list, longest first. -/
def suffixes : List Char → List (List Char)
  | [] => [[]]
  | c :: s => (c :: s) :: suffixes s

/-- Matching a token list against a character list, with the semantics of
the regular expression produced by `fnmatch.translate`: `star` (i.e. `.*`
with DOTALL) consumes an arbitrary prefix — any characters, `/` and
newlines included — so the rest of the pattern may match any suffix. -/
def globMatch : List GlobTok → List Char → Bool
  | [], s => s.isEmpty
  | GlobTok.star :: ps, s => (suffixes s).any (fun t => globMatch ps t)
  | GlobTok.any :: ps, s =>
    match s with
    | [] => false
    | _ :: s2 => globMatch ps s2
  | GlobTok.cls neg items :: ps, s =>
    match s with
    | [] => false
    | c :: s2 => matchClass neg items c && globMatch ps s2
  | GlobTok.lit a :: ps, s =>
    match s with
    | [] => false
    | c :: s2 => (a == c) && globMatch ps s2

/-- `fnmatch.fnmatch(name, pat)` (`os.path.normcase` is the identity on
POSIX, so this is also `fnmatchcase`). -/
def fnmatch (name pat : String) : Bool := globMatch (globLex pat.data) name.data

example : fnmatch "a/b" "a*b" = true := by decide
example : fnmatch "axb" "a?b" = true := by decide
example : fnmatch "ab" "a?b" = false := by decide
example : fnmatch "file" "file" = true := by decide
example : fnmatch "afile" "file" = false := by decide
example : fnmatch "ac" "a[bc]" = true := by decide
example : fnmatch "ad" "a[bc]" = false := by decide
example : fnmatch "ad" "a[!bc]" = true := by decide
example : fnmatch "a-" "a[-]" = true := by decide
example : fnmatch "a[" "a[" = true := by decide
example : fnmatch "b" "[a-c]" = true := by decide
example : fnmatch "]" "[]]" = true := by decide

/-- Strip trailing `/` characters: the `head.rstrip('/')` of
`posixpath.split`. -/
def rstripSlash (l : List Char) : List Char :=
  (l.reverse.dropWhile (fun c => c = '/')).reverse

/-- The characters after the last `/`, reversed (`p[i:]` for
`i = p.rfind('/') + 1`). -/
def osSplitTailRev (p : String) : List Char :=
  p.data.reverse.takeWhile (fun c => c ≠ '/')

/-- The characters up to and including the last `/` (`p[:i]`). -/
def osSplitHead0 (p : String) : List Char :=
  p.data.take (p.data.length - (osSplitTailRev p).length)

/-- Embedding of `os.path.split` (POSIX): split at the last `/`; the head
keeps no trailing slashes unless it consists of slashes only; with no `/`
the head is empty. -/
def osSplit (p : String) : String × String :=
  if (osSplitTailRev p).length = p.data.length then ("", p)
  else
    (String.mk (if (osSplitHead0 p).all (fun c => c = '/') then osSplitHead0 p
      else rstripSlash (osSplitHead0 p)),
     String.mk (osSplitTailRev p).reverse)

example : osSplit "a/b/c" = ("a/b", "c") := by decide
example : osSplit "a" = ("", "a") := by decide
example : osSplit "" = ("", "") := by decide
example : osSplit "a//b" = ("a", "b") := by decide
example : osSplit "/a" = ("/", "a") := by decide

/-- Python `'/'.join`. -/
def joinSlash : List String → String
  | [] => ""
  | [s] => s
  | s :: rest => s ++ "/" ++ joinSlash rest

/-- The loop of the unanchored case (lines 349-353): peel the trailing
component `pattern.count('/')` times, accumulating `reversed(components)`
directly. -/
def lastComps : Nat → String → List String → List String
  | 0, _, acc => acc
  | n + 1, tmp, acc => lastComps n (osSplit tmp).1 ((osSplit tmp).2 :: acc)

/-- `pattern.startswith('/')` (line 345). -/
def startsWithSlash (pattern : String) : Bool :=
  match pattern.data with
  | '/' :: _ => true
  | _ => false

/-- Embedding of the `match` helper of `Repo._ignore_files` (lines
343-356): an anchored pattern (leading `/`) is `fnmatch`-ed against the
whole path with the slash stripped; an unanchored pattern with `N` slashes
is `fnmatch`-ed against the last `N+1` components of the path, joined by
`/` (missing components appear as empty strings). -/
def matchPat (path pattern : String) : Bool :=
  if startsWithSlash pattern then
    fnmatch path (String.mk pattern.data.tail)
  else
    fnmatch
      (joinSlash (lastComps (pattern.data.count '/') (osSplit path).1 [(osSplit path).2]))
      pattern

example : matchPat "a/b" "/a/b" = true := by decide
example : matchPat "a/b" "b" = true := by decide
example : matchPat "a/b" "a" = false := by decide
example : matchPat "a/b/c" "b/c" = true := by decide
example : matchPat "b" "a/b" = false := by decide
example : matchPat "a/b" "/b" = false := by decide
example : matchPat ".synkrotron" "/.synkrotron" = true := by decide
example : matchPat ".synkrotron/config" "/.synkrotron" = false := by decide

/-- A well-formed path component: nonempty and free of `/`. -/
def wfComp (c : String) : Prop := c ≠ "" ∧ '/' ∉ c.data

instance (c : String) : Decidable (wfComp c) := by
  unfold wfComp
  infer_instance

theorem takeWhile_of_all {p : Char → Bool} :
    ∀ l : List Char, (∀ a ∈ l, p a = true) → List.takeWhile p l = l := by
  intro l h
  induction l with
  | nil => rfl
  | cons a t ih =>
    rw [List.takeWhile_cons, if_pos (h a (List.mem_cons_self a t)),
      ih (fun b hb => h b (List.mem_cons_of_mem a hb))]

theorem takeWhile_middle {p : Char → Bool} :
    ∀ (l1 : List Char) (x : Char) (l2 : List Char),
      (∀ a ∈ l1, p a = true) → p x = false →
      List.takeWhile p (l1 ++ x :: l2) = l1 := by
  intro l1 x l2 h1 hx
  induction l1 with
  | nil =>
    simp only [List.nil_append, List.takeWhile_cons, hx]
    rfl
  | cons a t ih =>
    rw [List.cons_append, List.takeWhile_cons, if_pos (h1 a (List.mem_cons_self a t)),
      ih (fun b hb => h1 b (List.mem_cons_of_mem a hb))]

theorem mk_data_eq (l : List Char) (s : String) : String.mk l = s ↔ l = s.data := by
  cases s with
  | mk d =>
    constructor
    · intro h
      cases h
      rfl
    · intro h
      cases h
      rfl

theorem osSplitTailRev_no_slash (c : String) (hc : '/' ∉ c.data) :
    osSplitTailRev c = c.data.reverse := by
  unfold osSplitTailRev
  exact takeWhile_of_all c.data.reverse (fun a ha => by
    simp only [decide_eq_true_eq]
    intro hslash
    subst hslash
    exact hc (List.mem_reverse.mp ha))

/-- Splitting a single well-formed component gives an empty head. -/
theorem osSplit_single (c : String) (hc : wfComp c) : osSplit c = ("", c) := by
  unfold osSplit
  rw [if_pos (by rw [osSplitTailRev_no_slash c hc.2]; simp)]

theorem joinSlash_concat (cs : List String) (c : String) (h : cs ≠ []) :
    joinSlash (cs ++ [c]) = joinSlash cs ++ "/" ++ c := by
  induction cs with
  | nil => exact absurd rfl h
  | cons x rest ih =>
    cases rest with
    | nil => rfl
    | cons y t =>
      have : joinSlash ((x :: y :: t) ++ [c]) = x ++ "/" ++ joinSlash ((y :: t) ++ [c]) := rfl
      rw [this, ih (by simp)]
      have h2 : joinSlash (x :: y :: t) = x ++ "/" ++ joinSlash (y :: t) := rfl
      rw [h2]
      apply String.ext
      simp [String.data_append, List.append_assoc]

/-- A nonempty well-formed join ends in a non-slash character. -/
theorem joinSlash_reverse_head :
    ∀ (cs : List String), cs ≠ [] → (∀ x ∈ cs, wfComp x) →
      ∃ ch t, (joinSlash cs).data.reverse = ch :: t ∧ ch ≠ '/' := by
  intro cs
  induction cs with
  | nil => intro h; exact absurd rfl h
  | cons x rest ih =>
    intro _ hwf
    cases rest with
    | nil =>
      have hx := hwf x (List.mem_cons_self _ _)
      cases hd : x.data.reverse with
      | nil =>
        exfalso
        apply hx.1
        apply String.ext
        have := congrArg List.reverse hd
        simpa using this
      | cons ch t =>
        refine ⟨ch, t, by simpa [joinSlash] using hd, ?_⟩
        intro hch
        apply hx.2
        have hmem : ch ∈ x.data.reverse := by
          rw [hd]
          exact List.mem_cons_self _ _
        rw [hch] at hmem
        exact List.mem_reverse.mp hmem
    | cons y trest =>
      obtain ⟨ch, t, hrev, hch⟩ := ih (by simp)
        (fun z hz => hwf z (List.mem_cons_of_mem x hz))
      refine ⟨ch, t ++ ('/' :: x.data.reverse), ?_, hch⟩
      have h2 : joinSlash (x :: y :: trest) = x ++ "/" ++ joinSlash (y :: trest) := rfl
      rw [h2]
      simp only [String.data_append, List.reverse_append]
      rw [hrev]
      simp

theorem mk_data_self (s : String) : String.mk s.data = s := by
  cases s
  rfl

/-- Splitting off the last component of a well-formed joined path. -/
theorem osSplit_concat (cs : List String) (c : String)
    (hne : cs ≠ []) (hwf : ∀ x ∈ cs, wfComp x) (hc : wfComp c) :
    osSplit (joinSlash (cs ++ [c])) = (joinSlash cs, c) := by
  rw [joinSlash_concat cs c hne]
  obtain ⟨ch, t, hrev, hch⟩ := joinSlash_reverse_head cs hne hwf
  have hdata : (joinSlash cs ++ "/" ++ c).data =
      ((joinSlash cs).data ++ ['/']) ++ c.data := by
    simp [String.data_append]
  have htw : osSplitTailRev (joinSlash cs ++ "/" ++ c) = c.data.reverse := by
    unfold osSplitTailRev
    rw [hdata]
    rw [show (((joinSlash cs).data ++ ['/']) ++ c.data).reverse =
      c.data.reverse ++ '/' :: (joinSlash cs).data.reverse from by simp]
    exact takeWhile_middle c.data.reverse '/' (joinSlash cs).data.reverse
      (fun a ha => by
        simp only [decide_eq_true_eq]
        intro hsl
        subst hsl
        exact hc.2 (List.mem_reverse.mp ha))
      (by simp)
  have hlen : (joinSlash cs ++ "/" ++ c).data.length =
      (joinSlash cs).data.length + 1 + c.data.length := by
    rw [hdata]
    simp
    omega
  have hh0 : osSplitHead0 (joinSlash cs ++ "/" ++ c) =
      (joinSlash cs).data ++ ['/'] := by
    unfold osSplitHead0
    rw [htw, hdata]
    have harith : ((joinSlash cs).data ++ ['/'] ++ c.data).length -
        c.data.reverse.length = ((joinSlash cs).data ++ ['/']).length := by
      simp only [List.length_append, List.length_reverse, List.length_singleton]
      omega
    rw [harith]
    exact List.take_left _ _
  have hnotall : ¬((((joinSlash cs).data ++ ['/']).all
      (fun x => x = '/')) = true) := by
    intro hall
    have hmem : ch ∈ (joinSlash cs).data ++ ['/'] := by
      apply List.mem_append_left
      apply List.mem_reverse.mp
      rw [hrev]
      exact List.mem_cons_self _ _
    have := List.all_eq_true.mp hall ch hmem
    simp only [decide_eq_true_eq] at this
    exact hch this
  have hstrip : rstripSlash ((joinSlash cs).data ++ ['/']) =
      (joinSlash cs).data := by
    unfold rstripSlash
    rw [List.reverse_append]
    simp only [List.reverse_cons, List.reverse_nil, List.nil_append,
      List.singleton_append]
    rw [List.dropWhile_cons]
    rw [if_pos (by simp)]
    rw [hrev, List.dropWhile_cons, if_neg (by simpa using hch)]
    rw [← hrev]
    simp
  unfold osSplit
  rw [if_neg (by
    rw [htw, hlen]
    simp only [List.length_reverse]
    omega)]
  rw [hh0, htw, if_neg hnotall, hstrip]
  rw [List.reverse_reverse, mk_data_self, mk_data_self]

/-- The component loop of the unanchored matcher peels exactly the last
`k` components. -/
theorem lastComps_drop :
    ∀ (k : Nat) (cs : List String) (acc : List String),
      (∀ x ∈ cs, wfComp x) → k ≤ cs.length →
      lastComps k (joinSlash cs) acc = cs.drop (cs.length - k) ++ acc := by
  intro k
  induction k with
  | zero =>
    intro cs acc hwf hk
    simp [lastComps]
  | succ n ih =>
    intro cs acc hwf hk
    rcases List.eq_nil_or_concat cs with rfl | ⟨cs2, c, hcs⟩
    · simp at hk
    · rw [List.concat_eq_append] at hcs
      subst hcs
      by_cases h2 : cs2 = []
      · subst h2
        have hn : n = 0 := by simpa using hk
        subst hn
        rw [show joinSlash ([] ++ [c]) = c from rfl]
        rw [show lastComps 1 c acc = (osSplit c).2 :: acc from rfl]
        rw [osSplit_single c (hwf c (by simp))]
        simp
      · have hsplit := osSplit_concat cs2 c h2
          (fun x hx => hwf x (List.mem_append_left _ hx)) (hwf c (by simp))
        rw [show lastComps (n + 1) (joinSlash (cs2 ++ [c])) acc =
          lastComps n (osSplit (joinSlash (cs2 ++ [c]))).1
            ((osSplit (joinSlash (cs2 ++ [c]))).2 :: acc) from rfl]
        rw [hsplit]
        have hn : n ≤ cs2.length := by
          simp only [List.length_append, List.length_singleton] at hk
          omega
        rw [ih cs2 (c :: acc) (fun x hx => hwf x (List.mem_append_left _ hx)) hn]
        rw [show (cs2 ++ [c]).length - (n + 1) = cs2.length - n from by
          simp only [List.length_append, List.length_singleton]
          omega]
        rw [List.drop_append_of_le_length (by omega)]
        simp

/-- The trailing suffix `[]` always appears among the suffixes, so `*`
matches everything. -/
theorem suffixes_any_empty : ∀ l : List Char,
    (suffixes l).any (fun t => t.isEmpty) = true := by
  intro l
  induction l with
  | nil => rfl
  | cons c s ih =>
    simp only [suffixes, List.any_cons]
    rw [ih]
    simp

/-- C8, counterexample: the anchored pattern `/a*b` does match the path
`a/b`, whose matched run spans the separator `/` — `fnmatch` translates
`*` to `.*` with DOTALL, which does not stop at `/`. -/
theorem C8_counterexample :
    matchPat "a/b" "/a*b" = true ∧ '/' ∈ ("a/b" : String).data := by
  constructor
  · decide
  · decide

/-- C8, amended: the matcher strips the leading `/` of an anchored pattern
and `fnmatch`-es the whole path against the rest; an unanchored pattern
with `N` slashes is `fnmatch`-ed against the last `N+1` path components
joined by `/` (stated for normalized paths with at least `N+1`
components); and the glob metacharacter `*` matches any run of characters,
the separator `/` included. -/
theorem C8_amended_matcher :
    (∀ (path : String) (pr : List Char),
      matchPat path (String.mk ('/' :: pr)) = fnmatch path (String.mk pr)) ∧
    (∀ (cs : List String) (pattern : String),
      cs ≠ [] → (∀ x ∈ cs, wfComp x) →
      startsWithSlash pattern = false →
      pattern.data.count '/' + 1 ≤ cs.length →
      matchPat (joinSlash cs) pattern =
        fnmatch (joinSlash (cs.drop (cs.length - (pattern.data.count '/' + 1))))
          pattern) ∧
    (∀ s : String, fnmatch s "*" = true) := by
  refine ⟨fun path pr => rfl, ?_, ?_⟩
  · intro cs pattern hne hwf hanch hlen
    unfold matchPat
    rw [hanch]
    simp only [Bool.false_eq_true, if_false]
    congr 1
    rcases List.eq_nil_or_concat cs with rfl | ⟨cs2, c, hcs⟩
    · exact absurd rfl hne
    · rw [List.concat_eq_append] at hcs
      subst hcs
      by_cases h2 : cs2 = []
      · subst h2
        simp only [List.length_append, List.length_nil, List.length_singleton,
          List.nil_append] at hlen
        have hn : pattern.data.count '/' = 0 := by omega
        rw [show joinSlash ([] ++ [c]) = c from rfl, hn]
        rw [osSplit_single c (hwf c (by simp))]
        simp [lastComps]
      · rw [osSplit_concat cs2 c h2
          (fun x hx => hwf x (List.mem_append_left _ hx)) (hwf c (by simp))]
        have hn : pattern.data.count '/' ≤ cs2.length := by
          simp only [List.length_append, List.length_singleton] at hlen
          omega
        rw [lastComps_drop (pattern.data.count '/') cs2 [c]
          (fun x hx => hwf x (List.mem_append_left _ hx)) hn]
        rw [show (cs2 ++ [c]).length - (pattern.data.count '/' + 1) =
          cs2.length - pattern.data.count '/' from by
            simp only [List.length_append, List.length_singleton]
            omega]
        rw [List.drop_append_of_le_length (by omega)]
  · intro s
    show (suffixes s.data).any (fun t => globMatch [] t) = true
    exact suffixes_any_empty s.data

/-- C8, witness for the amended theorem: path components `["a", "b"]`,
pattern `x/y` (one slash). -/
theorem C8_amended_witness :
    ((["a", "b"] : List String) ≠ [] ∧
      (∀ x ∈ (["a", "b"] : List String), wfComp x) ∧
      startsWithSlash "x/y" = false ∧
      ("x/y" : String).data.count '/' + 1 ≤ (["a", "b"] : List String).length) ∧
    matchPat (joinSlash ["a", "b"]) "x/y" =
      fnmatch (joinSlash ((["a", "b"] : List String).drop
        ((["a", "b"] : List String).length - (("x/y" : String).data.count '/' + 1))))
        "x/y" :=
  ⟨⟨by decide, by decide, by decide, by decide⟩,
    C8_amended_matcher.2.1 ["a", "b"] "x/y" (by decide) (by decide) (by decide)
      (by decide)⟩

/-! ## The walker filter: `Repo._ignore_files` (lines 339-395) -/

/-- `os.path.normpath(os.path.join(dirpath, fn))` (line 358), for a
normalized relative `dirpath` and a plain child name (or `'.'`). -/
def relJoin (dirpath fn : String) : String :=
  if fn = "." then dirpath
  else if dirpath = "." then fn
  else dirpath ++ "/" ++ fn

/-- Python `path.startswith(w)`. -/
def pyStartsWith (path w : String) : Bool := w.data.isPrefixOf path.data

/-- Python `pattern.split('/')`. -/
def splitOnSlash (s : String) : List String :=
  (s.data.splitOn '/').map String.mk

/-- The partial include pattern of lines 384-388: when the pattern has
more slashes than the path, keep only its first `path_depth + 1`
slash-separated pieces. -/
def partialPattern (pattern : String) (pathDepth : Nat) : String :=
  if pathDepth < pattern.data.count '/' then
    joinSlash ((splitOnSlash pattern).take (pathDepth + 1))
  else pattern

/-- The admission decision of `_ignore_files` for one child (lines
357-395): whether `fn` inside `dirpath` is ignored, together with the
updated `whitelist_dirs` (a Python set, modelled as a list with
membership-checked insertion).  Exclude patterns are tried first; with
include patterns configured, a child survives only through a whitelist
string-prefix hit or through the first include pattern whose anchored
partial form matches — and a full match records the path in the
whitelist. -/
def ignoreStep (exclude include_ : List String) (wl : List String)
    (dirpath fn : String) : Bool × List String :=
  if relJoin dirpath fn = "." then (false, wl)
  else if exclude.any (fun pattern => matchPat (relJoin dirpath fn) pattern) then
    (true, wl)
  else if include_ = [] then (false, wl)
  else if wl.any (fun w => pyStartsWith (relJoin dirpath fn) w) then (false, wl)
  else
    match include_.find? (fun pattern => matchPat (relJoin dirpath fn)
        ("/" ++ partialPattern pattern ((relJoin dirpath fn).data.count '/'))) with
    | none => (true, wl)
    | some pattern =>
      if partialPattern pattern ((relJoin dirpath fn).data.count '/') = pattern then
        (false, if relJoin dirpath fn ∈ wl then wl else relJoin dirpath fn :: wl)
      else
        (false, wl)

/-- `_ignore_files` over a list of child names: the ignored names in
order, and the final whitelist (the generator mutates `whitelist_dirs`
while it runs, so earlier names influence later ones). -/
def ignoreFiles (exclude include_ : List String) (wl : List String)
    (dirpath : String) : List String → List String × List String
  | [] => ([], wl)
  | fn :: rest =>
    ((if (ignoreStep exclude include_ wl dirpath fn).1 then
        fn :: (ignoreFiles exclude include_
          (ignoreStep exclude include_ wl dirpath fn).2 dirpath rest).1
      else (ignoreFiles exclude include_
          (ignoreStep exclude include_ wl dirpath fn).2 dirpath rest).1),
     (ignoreFiles exclude include_
        (ignoreStep exclude include_ wl dirpath fn).2 dirpath rest).2)

example : ignoreStep ["/.synkrotron"] [] [] "." ".synkrotron" = (true, []) := by decide
example : ignoreStep ["/.synkrotron"] ["a"] [] "." "a" = (false, ["a"]) := by decide
example : ignoreStep ["/.synkrotron"] ["a"] ["a"] "a" "b" = (false, ["a"]) := by decide
example : ignoreStep ["/.synkrotron"] ["a"] [] "." "x" = (true, []) := by decide

/-- C9, counterexample: with include pattern `b` (no leading slash), the
child `b` of directory `a` is rejected by `_ignore_files`, although the
unanchored trailing-component rule of §4.2 does match `b` against `a/b` —
include patterns are matched anchored at the root (line 389 prepends `/`),
never with the unanchored rule. -/
theorem C9_counterexample :
    matchPat "a/b" "b" = true ∧
    ignoreStep ["/.synkrotron"] ["b"] [] "a" "b" = (true, []) := by
  constructor
  · decide
  · decide

/-- C9, amended: with include patterns configured, a child is admitted
exactly when it is the root `'.'`, or no exclude pattern matches it and
either a whitelist entry is a string prefix of its path or some include
pattern matches it anchored at the root (partially, when the pattern is
deeper than the path).  The whitelist grows by at most the child path
itself, and it does grow when the first matching include pattern is a full
(undeepened) match. -/
theorem C9_amended_include_admission (exclude include_ wl : List String)
    (dirpath fn : String) (hinc : include_ ≠ []) :
    ((ignoreStep exclude include_ wl dirpath fn).1 = false ↔
      (relJoin dirpath fn = "." ∨
        ((∀ p ∈ exclude, matchPat (relJoin dirpath fn) p = false) ∧
          ((∃ w ∈ wl, pyStartsWith (relJoin dirpath fn) w = true) ∨
            (∃ p ∈ include_, matchPat (relJoin dirpath fn)
              ("/" ++ partialPattern p ((relJoin dirpath fn).data.count '/')) =
                true))))) ∧
    ((ignoreStep exclude include_ wl dirpath fn).2 = wl ∨
      (ignoreStep exclude include_ wl dirpath fn).2 = relJoin dirpath fn :: wl) ∧
    (∀ pattern,
      relJoin dirpath fn ≠ "." →
      (∀ p ∈ exclude, matchPat (relJoin dirpath fn) p = false) →
      (∀ w ∈ wl, pyStartsWith (relJoin dirpath fn) w = false) →
      include_.find? (fun p => matchPat (relJoin dirpath fn)
        ("/" ++ partialPattern p ((relJoin dirpath fn).data.count '/'))) =
          some pattern →
      partialPattern pattern ((relJoin dirpath fn).data.count '/') = pattern →
      relJoin dirpath fn ∉ wl →
      (ignoreStep exclude include_ wl dirpath fn).2 =
        relJoin dirpath fn :: wl) := by
  by_cases hdot : relJoin dirpath fn = "."
  · have hstep : ignoreStep exclude include_ wl dirpath fn = (false, wl) := by
      unfold ignoreStep
      rw [if_pos hdot]
    rw [hstep]
    refine ⟨⟨fun _ => Or.inl hdot, fun _ => rfl⟩, Or.inl rfl, ?_⟩
    intro pattern hne
    exact absurd hdot hne
  · by_cases hexc : exclude.any (fun pattern => matchPat (relJoin dirpath fn) pattern) = true
    · have hstep : ignoreStep exclude include_ wl dirpath fn = (true, wl) := by
        unfold ignoreStep
        rw [if_neg hdot, if_pos hexc]
      rw [hstep]
      obtain ⟨p, hp, hm⟩ := List.any_eq_true.mp hexc
      refine ⟨?_, Or.inl rfl, ?_⟩
      · simp only [Bool.true_eq_false, false_iff]
        rintro (h | ⟨hall, _⟩)
        · exact hdot h
        · rw [hall p hp] at hm
          exact Bool.noConfusion hm
      · intro pattern _ hall
        rw [hall p hp] at hm
        exact fun _ _ _ _ => Bool.noConfusion hm
    · have hallexc : ∀ p ∈ exclude, matchPat (relJoin dirpath fn) p = false := by
        intro p hp
        by_contra hne
        exact hexc (List.any_eq_true.mpr ⟨p, hp, by
          cases hmp : matchPat (relJoin dirpath fn) p with
          | true => rfl
          | false => exact absurd hmp hne⟩)
      by_cases hwl : wl.any (fun w => pyStartsWith (relJoin dirpath fn) w) = true
      · have hstep : ignoreStep exclude include_ wl dirpath fn = (false, wl) := by
          unfold ignoreStep
          rw [if_neg hdot, if_neg hexc, if_neg hinc, if_pos hwl]
        rw [hstep]
        obtain ⟨w, hw, hpw⟩ := List.any_eq_true.mp hwl
        refine ⟨⟨fun _ => Or.inr ⟨hallexc, Or.inl ⟨w, hw, hpw⟩⟩, fun _ => rfl⟩,
          Or.inl rfl, ?_⟩
        intro pattern _ _ hallwl
        rw [hallwl w hw] at hpw
        exact fun _ _ _ => Bool.noConfusion hpw
      · have hnowl : ¬∃ w ∈ wl, pyStartsWith (relJoin dirpath fn) w = true := by
          intro ⟨w, hw, hpw⟩
          exact hwl (List.any_eq_true.mpr ⟨w, hw, hpw⟩)
        cases hfind : include_.find? (fun pattern => matchPat (relJoin dirpath fn)
            ("/" ++ partialPattern pattern ((relJoin dirpath fn).data.count '/'))) with
        | none =>
          have hstep : ignoreStep exclude include_ wl dirpath fn = (true, wl) := by
            unfold ignoreStep
            rw [if_neg hdot, if_neg hexc, if_neg hinc, if_neg hwl, hfind]
          rw [hstep]
          refine ⟨?_, Or.inl rfl, ?_⟩
          · simp only [Bool.true_eq_false, false_iff]
            rintro (h | ⟨_, (hex | ⟨p, hp, hm⟩)⟩)
            · exact hdot h
            · exact hnowl hex
            · exact absurd hm (List.find?_eq_none.mp hfind p hp)
          · intro pattern _ _ _ hsome
            exact fun _ _ => Option.noConfusion hsome
        | some pattern =>
          have hmem := List.mem_of_find?_eq_some hfind
          have hmatch := List.find?_some hfind
          have hstep : ignoreStep exclude include_ wl dirpath fn =
              if partialPattern pattern ((relJoin dirpath fn).data.count '/') = pattern then
                (false, if relJoin dirpath fn ∈ wl then wl
                  else relJoin dirpath fn :: wl)
              else (false, wl) := by
            unfold ignoreStep
            rw [if_neg hdot, if_neg hexc, if_neg hinc, if_neg hwl, hfind]
          rw [hstep]
          constructor
          · constructor
            · intro _
              exact Or.inr ⟨hallexc, Or.inr ⟨pattern, hmem, hmatch⟩⟩
            · intro _
              by_cases hfull : partialPattern pattern
                  ((relJoin dirpath fn).data.count '/') = pattern
              · rw [if_pos hfull]
              · rw [if_neg hfull]
          · constructor
            · by_cases hfull : partialPattern pattern
                  ((relJoin dirpath fn).data.count '/') = pattern
              · rw [if_pos hfull]
                by_cases hin : relJoin dirpath fn ∈ wl
                · rw [if_pos hin]
                  exact Or.inl rfl
                · rw [if_neg hin]
                  exact Or.inr rfl
              · rw [if_neg hfull]
                exact Or.inl rfl
            · intro pattern2 _ _ _ hsome hfull2 hnotin
              simp only [Option.some.injEq] at hsome
              subst hsome
              rw [if_pos hfull2, if_neg hnotin]

/-- C9, witness for the amended theorem: include `a`, child `a` of the
root — admitted through a full include match, which whitelists `a`. -/
theorem C9_amended_witness :
    ((["a"] : List String) ≠ []) ∧
    (((ignoreStep ["/.synkrotron"] ["a"] [] "." "a").1 = false ↔
      (relJoin "." "a" = "." ∨
        ((∀ p ∈ (["/.synkrotron"] : List String),
            matchPat (relJoin "." "a") p = false) ∧
          ((∃ w ∈ ([] : List String), pyStartsWith (relJoin "." "a") w = true) ∨
            (∃ p ∈ (["a"] : List String), matchPat (relJoin "." "a")
              ("/" ++ partialPattern p ((relJoin "." "a").data.count '/')) =
                true))))) ∧
    ((ignoreStep ["/.synkrotron"] ["a"] [] "." "a").2 = [] ∨
      (ignoreStep ["/.synkrotron"] ["a"] [] "." "a").2 = relJoin "." "a" :: []) ∧
    (∀ pattern,
      relJoin "." "a" ≠ "." →
      (∀ p ∈ (["/.synkrotron"] : List String),
        matchPat (relJoin "." "a") p = false) →
      (∀ w ∈ ([] : List String), pyStartsWith (relJoin "." "a") w = false) →
      (["a"] : List String).find? (fun p => matchPat (relJoin "." "a")
        ("/" ++ partialPattern p ((relJoin "." "a").data.count '/'))) =
          some pattern →
      partialPattern pattern ((relJoin "." "a").data.count '/') = pattern →
      relJoin "." "a" ∉ ([] : List String) →
      (ignoreStep ["/.synkrotron"] ["a"] [] "." "a").2 = relJoin "." "a" :: [])) :=
  ⟨by decide,
    C9_amended_include_admission ["/.synkrotron"] ["a"] [] "." "a" (by decide)⟩

/-! ## Filename encryption: `Remote._map_names` (lines 175-196) -/

/-- The encryption cache initialized by `_load_cache` (line 173): a pair
of string maps, documented in the source as
`(encrypted->clear, clear->encrypted)`.  Python dictionaries are modelled
as association lists where a fresh insertion is prepended and shadows any
older binding of the same key. -/
abbrev NameCache := List (String × String) × List (String × String)

/-- `self._cache[i]`. -/
def cacheGet (cache : NameCache) (i : Nat) : List (String × String) :=
  if i = 0 then cache.1 else cache.2

/-- `self._cache[i][c] = mapped`. -/
def cachePut (cache : NameCache) (i : Nat) (c mapped : String) : NameCache :=
  if i = 0 then ((c, mapped) :: cache.1, cache.2)
  else (cache.1, (c, mapped) :: cache.2)

/-- `cache_index = 0 if command == 'decrypt' else 1` (line 187). -/
def cache_index (command : String) : Nat :=
  if command = "decrypt" then 0 else 1

/-- The insertion loop of lines 193-195: for every pair `(c, mapped)`
produced by `zip(uncached, output_lines)`, set `cache[i][c] = mapped` and
`cache[1 - i][mapped] = c`. -/
def insertPairs (i : Nat) : NameCache → List (String × String) → NameCache
  | cache, [] => cache
  | cache, (c, mapped) :: rest =>
    insertPairs i (cachePut (cachePut cache i c mapped) (1 - i) mapped c) rest

/-- Line 189: the path components, in order and with duplicates, that have
no entry in `cache[i]` (checked against the cache as it stood before the
helper call). -/
def uncachedOf (cache : NameCache) (i : Nat) (fns : List (List String)) :
    List String :=
  fns.flatten.filter (fun c => ((cacheGet cache i).lookup c).isNone)

/-- The cache after the helper call: unchanged when every component was
cached (the `if uncached:` guard of line 190), else extended by the
zip-truncated pairing of uncached components with output lines. -/
def newCache (outputs : List String) (cache : NameCache) (i : Nat)
    (fns : List (List String)) : NameCache :=
  if uncachedOf cache i fns = [] then cache
  else insertPairs i cache ((uncachedOf cache i fns).zip outputs)

/-- The inner comprehension of line 196: look every component of one
filename up in `cache[i]`; a missing component raises an uncaught
`KeyError`. -/
def lookupAll (d : List (String × String)) : List String → Except String (List String)
  | [] => Except.ok []
  | c :: rest =>
    match d.lookup c with
    | none => Except.error ("KeyError: " ++ c)
    | some v =>
      match lookupAll d rest with
      | Except.error e => Except.error e
      | Except.ok vs => Except.ok (v :: vs)

/-- Line 196: rebuild each translated filename with `os.sep.join`,
propagating the first `KeyError`. -/
def joinAll (d : List (String × String)) : List (List String) → Except String (List String)
  | [] => Except.ok []
  | fn :: rest =>
    match lookupAll d fn with
    | Except.error e => Except.error e
    | Except.ok vs =>
      match joinAll d rest with
      | Except.error e => Except.error e
      | Except.ok out => Except.ok (joinSlash vs :: out)

/-- `Remote._map_names` (lines 183-196).  The `encfsctl` subprocess is
modelled by its exit status and its list of output lines; line 192 binds
the status to `_`, so it cannot influence the result, and line 193 pairs
the output lines with the uncached components by `zip`, which silently
truncates to the shorter list.  Returns the translated names (or the
uncaught `KeyError` of the reassembly) together with the mutated
persistent cache. -/
def map_names (_status : ℤ) (outputs : List String) (cache : NameCache)
    (command : String) (filenames : List String) :
    Except String (List String) × NameCache :=
  if filenames = [] then (Except.ok [], cache)
  else
    (joinAll
      (cacheGet (newCache outputs cache (cache_index command)
        (filenames.map splitOnSlash)) (cache_index command))
      (filenames.map splitOnSlash),
     newCache outputs cache (cache_index command) (filenames.map splitOnSlash))

/-- `Remote.decrypt_names` (lines 176-178): note that it passes the
command string `decode` to `_map_names`, whereas `_map_names` compares
against `decrypt`. -/
def decrypt_names (status : ℤ) (outputs : List String) (cache : NameCache)
    (filenames : List String) : Except String (List String) × NameCache :=
  map_names status outputs cache "decode" filenames

/-- `Remote.encrypt_names` (lines 180-182). -/
def encrypt_names (status : ℤ) (outputs : List String) (cache : NameCache)
    (filenames : List String) : Except String (List String) × NameCache :=
  map_names status outputs cache "encode" filenames

example : splitOnSlash "a/b" = ["a", "b"] := by decide
example : (map_names 0 ["x", "y"] (([], []) : NameCache) "encode" ["a/b"]).1 =
    Except.ok ["x/y"] := rfl
example : (map_names 0 [] (([("x", "a")], [("a", "x")]) : NameCache)
    "encode" ["a"]).1 = Except.ok ["x"] := rfl

/-- C5: the cache is corrupted because the dead test of line 187 compares
`command` against `decrypt` while the callers pass `decode` (line 177)
and `encode` (line 181), so both directions use cache index 1.  With a
correct, injective helper that encrypts `a` to `b` and `b` to `c` (and
whose line count matches), after `encrypt_names(['a','b'])` the engine
answers `encrypt_names(['a']) = ['b']` but `decrypt_names(['b']) = ['c']`:
the recorded pair `(a, b)` violates the documented mutual-inverse
invariant `decrypt(encrypt([c])) == [c]`. -/
theorem C5_decode_index_code_bug :
    cache_index "decode" = 1 ∧ cache_index "decrypt" = 0 ∧
    (encrypt_names 0 ["b", "c"] (([], []) : NameCache) ["a", "b"]).1 =
      Except.ok ["b", "c"] ∧
    (encrypt_names 0 []
        (encrypt_names 0 ["b", "c"] (([], []) : NameCache) ["a", "b"]).2
        ["a"]).1 = Except.ok ["b"] ∧
    (decrypt_names 0 []
        (encrypt_names 0 ["b", "c"] (([], []) : NameCache) ["a", "b"]).2
        ["b"]).1 = Except.ok ["c"] := by
  refine ⟨by decide, by decide, rfl, rfl, rfl⟩

/-- C6, counterexample: the helper exits with status `-1` and returns one
line for two requested components, yet no failure tied to either condition
occurs: the first pair is inserted into the persistent cache (partial
insertion) and the call fails only afterwards, with the uncaught
`KeyError` of the reassembly of line 196; with an extra output line the
call silently succeeds. -/
theorem C6_counterexample :
    (map_names (-1) ["x"] (([], []) : NameCache) "encode" ["a/b"]).1 =
      Except.error "KeyError: b" ∧
    (map_names (-1) ["x"] (([], []) : NameCache) "encode" ["a/b"]).2 =
      ([("x", "a")], [("a", "x")]) ∧
    (map_names (-1) ["x", "y", "z"] (([], []) : NameCache) "encode"
      ["a/b"]).1 = Except.ok ["x/y"] := by
  refine ⟨rfl, rfl, rfl⟩

lemma cacheGet_cachePut_same (c : NameCache) (i : Nat) (hi : i = 0 ∨ i = 1)
    (a b : String) : cacheGet (cachePut c i a b) i = (a, b) :: cacheGet c i := by
  rcases hi with h | h <;> subst h <;> rfl

lemma cacheGet_cachePut_other (c : NameCache) (i j : Nat)
    (hij : i = 0 ∧ j = 1 ∨ i = 1 ∧ j = 0) (a b : String) :
    cacheGet (cachePut c j a b) i = cacheGet c i := by
  rcases hij with ⟨h1, h2⟩ | ⟨h1, h2⟩ <;> subst h1 <;> subst h2 <;> rfl

lemma lookup_insertPairs_of_not_mem (i : Nat) (hi : i = 0 ∨ i = 1)
    (c : NameCache) (ps : List (String × String)) (d : String)
    (hd : ∀ p ∈ ps, p.1 ≠ d) :
    (cacheGet (insertPairs i c ps) i).lookup d = (cacheGet c i).lookup d := by
  induction ps generalizing c with
  | nil => rfl
  | cons p rest ih =>
    obtain ⟨a, b⟩ := p
    rw [insertPairs]
    rw [ih _ (fun q hq => hd q (List.mem_cons_of_mem _ hq))]
    have hne : i = 0 ∧ 1 - i = 1 ∨ i = 1 ∧ 1 - i = 0 := by
      rcases hi with h | h <;> subst h
      · exact Or.inl ⟨rfl, rfl⟩
      · exact Or.inr ⟨rfl, rfl⟩
    rw [cacheGet_cachePut_other _ i (1 - i) hne, cacheGet_cachePut_same _ i hi]
    rw [List.lookup_cons]
    have : (d == a) = false :=
      beq_eq_false_iff_ne.mpr (fun h => hd (a, b) (List.mem_cons_self (a, b) rest) h.symm)
    rw [this]

lemma lookupAll_error_of_mem (d : List (String × String)) (c : String)
    (fn : List String) (hc : c ∈ fn) (h : d.lookup c = none) :
    ∃ e, lookupAll d fn = Except.error e := by
  induction fn with
  | nil => cases hc
  | cons a rest ih =>
    rcases List.mem_cons.mp hc with h2 | h2
    · subst h2
      rw [lookupAll, h]
      exact ⟨_, rfl⟩
    · obtain ⟨e, he⟩ := ih h2
      rw [lookupAll]
      cases hlk : d.lookup a with
      | none => exact ⟨_, rfl⟩
      | some v =>
        rw [he]
        exact ⟨e, rfl⟩

lemma joinAll_error_of_mem (d : List (String × String)) (c : String)
    (fns : List (List String)) (fn : List String) (hfn : fn ∈ fns)
    (hc : c ∈ fn) (h : d.lookup c = none) :
    ∃ e, joinAll d fns = Except.error e := by
  induction fns with
  | nil => cases hfn
  | cons g rest ih =>
    rcases List.mem_cons.mp hfn with h2 | h2
    · subst h2
      obtain ⟨e, he⟩ := lookupAll_error_of_mem d c fn hc h
      rw [joinAll, he]
      exact ⟨e, rfl⟩
    · obtain ⟨e, he⟩ := ih h2
      rw [joinAll]
      cases hlk : lookupAll d g with
      | error e2 => exact ⟨e2, rfl⟩
      | ok vs =>
        rw [he]
        exact ⟨e, rfl⟩

lemma cache_index_eq (command : String) :
    cache_index command = 0 ∨ cache_index command = 1 := by
  unfold cache_index
  by_cases h : command = "decrypt"
  · rw [if_pos h]
    exact Or.inl rfl
  · rw [if_neg h]
    exact Or.inr rfl

/-- C6, amended: the exit status of the helper is discarded (line 192
binds it to `_`), so the result of `_map_names` does not depend on it at
all; when the helper returns fewer lines than the number of (pairwise
distinct) uncached components, the truncated `zip` of line 193 inserts
the paired part into the persistent cache anyway, and the call then fails
with the uncaught `KeyError` of line 196 — not with a dedicated helper
error, and not leaving the cache unchanged.  (With duplicated uncached
components, or with excess output lines, a short or long helper answer
can even succeed silently.) -/
theorem C6_amended_helper_failure (status1 status2 : ℤ) (outputs : List String)
    (cache : NameCache) (command : String) (filenames : List String)
    (hlt : outputs.length <
      (uncachedOf cache (cache_index command) (filenames.map splitOnSlash)).length)
    (hnodup : (uncachedOf cache (cache_index command)
      (filenames.map splitOnSlash)).Nodup) :
    map_names status1 outputs cache command filenames =
      map_names status2 outputs cache command filenames ∧
    (∃ e, (map_names status1 outputs cache command filenames).1 =
      Except.error e) ∧
    (map_names status1 outputs cache command filenames).2 =
      insertPairs (cache_index command) cache
        ((uncachedOf cache (cache_index command)
          (filenames.map splitOnSlash)).zip outputs) := by
  refine ⟨rfl, ?_, ?_⟩
  all_goals
    have hf : filenames ≠ [] := by
      intro hf
      subst hf
      simp only [List.map_nil, uncachedOf, List.flatten_nil,
        List.filter_nil, List.length_nil] at hlt
      exact Nat.not_lt_zero _ hlt
  all_goals
    have hne : uncachedOf cache (cache_index command)
        (filenames.map splitOnSlash) ≠ [] := by
      intro h0
      rw [h0] at hlt
      exact Nat.not_lt_zero _ hlt
  · have hm : outputs.length <
        (uncachedOf cache (cache_index command)
          (filenames.map splitOnSlash)).length := hlt
    obtain ⟨d, hdmem, hdpos⟩ :
        ∃ d, d ∈ uncachedOf cache (cache_index command)
            (filenames.map splitOnSlash) ∧
          d = (uncachedOf cache (cache_index command)
            (filenames.map splitOnSlash)).get ⟨outputs.length, hm⟩ :=
      ⟨_, List.get_mem _ _ hm, rfl⟩
    have hdun : ((cacheGet cache (cache_index command)).lookup d).isNone := by
      have := List.of_mem_filter hdmem
      exact this
    have hdfl : d ∈ (filenames.map splitOnSlash).flatten :=
      List.mem_of_mem_filter hdmem
    obtain ⟨fn, hfn, hdin⟩ := List.mem_flatten.mp hdfl
    have hzip : ∀ p ∈ (uncachedOf cache (cache_index command)
        (filenames.map splitOnSlash)).zip outputs, p.1 ≠ d := by
      intro p hp
      obtain ⟨⟨k, hk⟩, hpk⟩ := List.get_of_mem hp
      have hklt : k < outputs.length := by
        have := hk
        rw [List.length_zip] at this
        omega
      have hp1 : p.1 = (uncachedOf cache (cache_index command)
          (filenames.map splitOnSlash)).get ⟨k, by omega⟩ := by
        rw [← hpk]
        simp only [List.get_eq_getElem, List.getElem_zip]
      intro hcontra
      rw [hp1, hdpos] at hcontra
      simp only [List.get_eq_getElem] at hcontra
      have := (List.Nodup.getElem_inj_iff hnodup).mp hcontra
      omega
    have hlook : (cacheGet (insertPairs (cache_index command) cache
        ((uncachedOf cache (cache_index command)
          (filenames.map splitOnSlash)).zip outputs)) (cache_index command)).lookup d =
        none := by
      rw [lookup_insertPairs_of_not_mem (cache_index command)
        (cache_index_eq command) cache _ d hzip]
      exact Option.isNone_iff_eq_none.mp hdun
    obtain ⟨e, he⟩ := joinAll_error_of_mem _ d (filenames.map splitOnSlash) fn hfn hdin hlook
    refine ⟨e, ?_⟩
    unfold map_names
    rw [if_neg hf]
    unfold newCache
    rw [if_neg hne]
    exact he
  · unfold map_names
    rw [if_neg hf]
    unfold newCache
    rw [if_neg hne]

/-- C6, witness for the amended theorem: one filename `a/b` (two uncached
components), one output line, two different exit statuses. -/
theorem C6_amended_witness :
    ((["x"] : List String).length <
      (uncachedOf (([], []) : NameCache) (cache_index "encode")
        ((["a/b"] : List String).map splitOnSlash)).length ∧
      (uncachedOf (([], []) : NameCache) (cache_index "encode")
        ((["a/b"] : List String).map splitOnSlash)).Nodup) ∧
    (map_names 0 ["x"] (([], []) : NameCache) "encode" ["a/b"] =
      map_names (-1) ["x"] (([], []) : NameCache) "encode" ["a/b"] ∧
    (∃ e, (map_names 0 ["x"] (([], []) : NameCache) "encode" ["a/b"]).1 =
      Except.error e) ∧
    (map_names 0 ["x"] (([], []) : NameCache) "encode" ["a/b"]).2 =
      insertPairs (cache_index "encode") (([], []) : NameCache)
        ((uncachedOf (([], []) : NameCache) (cache_index "encode")
          ((["a/b"] : List String).map splitOnSlash)).zip ["x"])) :=
  ⟨⟨by decide, by decide⟩,
    C6_amended_helper_failure 0 (-1) ["x"] (([], []) : NameCache) "encode"
      ["a/b"] (by decide) (by decide)⟩

/-! ## The local walk: `Repo.__init__` and `Repo._collect_local` (lines 206-300) -/

/-- Line 234: after normalization the user exclude patterns always receive
the anchored pattern `/.synkrotron` at the end.  (The per-pattern
`os.path.normpath` and the dropping of empty patterns are outside this
model: the argument stands for the already-normalized user patterns.) -/
def initExclude (user_patterns : List String) : List String :=
  user_patterns ++ ["/.synkrotron"]

/-- A directory tree as seen by `os.walk`: regular files and directories
with their `stat` data.  Symbolic links are outside this model (the walk
is taken with `preserve_links = False`, every node stats as `f` or `d`). -/
inductive FSNode where
  | file (name : String) (size : ℤ) (mtime : ℚ)
  | dir (name : String) (size : ℤ) (mtime : ℚ) (children : List FSNode)

def nodeName : FSNode → String
  | FSNode.file n _ _ => n
  | FSNode.dir n _ _ _ => n

/-- The `(file_type, st_size, st_mtime)` triple of `info` (lines 258-274). -/
def nodeStat : FSNode → Stat
  | FSNode.file _ sz mt => ⟨FType.f, sz, mt⟩
  | FSNode.dir _ sz mt _ => ⟨FType.d, sz, mt⟩

def nodeChildren : FSNode → List FSNode
  | FSNode.file _ _ _ => []
  | FSNode.dir _ _ _ cs => cs

def isDirNode : FSNode → Bool
  | FSNode.file _ _ _ => false
  | FSNode.dir _ _ _ _ => true

def childNamed (children : List FSNode) (n : String) : Option FSNode :=
  children.find? (fun c => nodeName c == n)

def statOfChild (children : List FSNode) (n : String) : Stat :=
  match childNamed children n with
  | some c => nodeStat c
  | none => stat0

def childrenOf (children : List FSNode) (n : String) : List FSNode :=
  match childNamed children n with
  | some c => nodeChildren c
  | none => []

/-- `dirnames` of one `os.walk` step, after the in-place `sort()` of
line 290. -/
def dirNamesOf (children : List FSNode) : List String :=
  sortStrs ((children.filter isDirNode).map nodeName)

/-- `filenames` of one `os.walk` step, after the in-place `sort()`. -/
def fileNamesOf (children : List FSNode) : List String :=
  sortStrs ((children.filter (fun c => !(isDirNode c))).map nodeName)

/-- Lines 292-293: every name returned by `_ignore_files` is deleted from
the (sorted, duplicate-free) name list by `bisect_left`; with unique names
this removes exactly the ignored names. -/
def keptNames (exclude include_ wl : List String) (relDir : String)
    (names : List String) : List String :=
  names.filter (fun n => !((ignoreFiles exclude include_ wl relDir names).1.contains n))

/-- The depth-first descent of `os.walk` into the surviving directories,
in sorted order, threading the shared `whitelist_dirs` set. -/
def recurseDirs
    (walkF : List String → String → List FSNode → List (String × Stat) × List String)
    (children : List FSNode) (relDir : String) :
    List String → List String → List (String × Stat) × List String
  | wl, [] => ([], wl)
  | wl, n :: rest =>
    ((walkF wl (relJoin relDir n) (childrenOf children n)).1 ++
      (recurseDirs walkF children relDir
        (walkF wl (relJoin relDir n) (childrenOf children n)).2 rest).1,
     (recurseDirs walkF children relDir
       (walkF wl (relJoin relDir n) (childrenOf children n)).2 rest).2)

/-- One level of the walk loop of lines 289-300 at relative directory
`relDir`, fuel-bounded in depth: prune and yield the directory entries,
then prune and yield the file entries, then descend into each surviving
directory, threading `whitelist_dirs` throughout in program order. -/
def walkList (exclude include_ : List String) :
    Nat → List String → String → List FSNode → List (String × Stat) × List String
  | 0, wl, _, _ => ([], wl)
  | fuel + 1, wl, relDir, children =>
    ((keptNames exclude include_ wl relDir (dirNamesOf children)).map
        (fun n => (relJoin relDir n, statOfChild children n)) ++
      (keptNames exclude include_
          (ignoreFiles exclude include_ wl relDir (dirNamesOf children)).2
          relDir (fileNamesOf children)).map
        (fun n => (relJoin relDir n, statOfChild children n)) ++
      (recurseDirs (walkList exclude include_ fuel) children relDir
        (ignoreFiles exclude include_
          (ignoreFiles exclude include_ wl relDir (dirNamesOf children)).2
          relDir (fileNamesOf children)).2
        (keptNames exclude include_ wl relDir (dirNamesOf children))).1,
     (recurseDirs (walkList exclude include_ fuel) children relDir
       (ignoreFiles exclude include_
         (ignoreFiles exclude include_ wl relDir (dirNamesOf children)).2
         relDir (fileNamesOf children)).2
       (keptNames exclude include_ wl relDir (dirNamesOf children))).2)

/-- `Repo._collect_local` (lines 258-300) for an existing base directory
`tree` at normalized relative path `rel_path`: if the base itself is not
rejected by the check of line 281, yield `info(base)` and then walk.  The
keys are the paths relative to the repository root. -/
def collect_local (exclude include_ : List String) (fuel : Nat)
    (rel_path : String) (tree : FSNode) : List (String × Stat) :=
  if (ignoreFiles exclude include_ [] rel_path ["."]).1 ≠ [] then []
  else (rel_path, nodeStat tree) ::
    (walkList exclude include_ fuel
      (ignoreFiles exclude include_ [] rel_path ["."]).2 rel_path
      (nodeChildren tree)).1

/-- Per-node sanity of real directory listings: no entry is named `.` and
no name contains a separator. -/
def wfNames (cs : List FSNode) : Bool :=
  cs.all (fun c => !(nodeName c == ".") && !((nodeName c).data.contains '/'))

def nodupNames : List String → Bool
  | [] => true
  | n :: rest => !(rest.contains n) && nodupNames rest

/-- Well-formedness of a directory tree down to the given depth: names
are sane and unique within each directory. -/
def wfLevel : Nat → List FSNode → Bool
  | 0, _ => true
  | fuel + 1, cs =>
    wfNames cs && (nodupNames (cs.map nodeName) &&
      cs.all (fun c => wfLevel fuel (nodeChildren c)))

/-- The leading path component (everything before the first slash). -/
def firstCompOf (s : String) : String :=
  String.mk (s.data.takeWhile (fun c => !(c == '/')))

example : collect_local (initExclude []) [] 2 "."
    (FSNode.dir "." 0 0 [FSNode.dir ".synkrotron" 0 0 [FSNode.file "config" 1 0],
      FSNode.file "a" 2 0]) =
    [(".", ⟨FType.d, 0, 0⟩), ("a", ⟨FType.f, 2, 0⟩)] := by decide

example : collect_local (initExclude []) [] 2 "."
    (FSNode.dir "." 0 0 [FSNode.dir "b" 0 0 [FSNode.file "c" 1 0],
      FSNode.file "a" 2 0]) =
    [(".", ⟨FType.d, 0, 0⟩), ("b", ⟨FType.d, 0, 0⟩), ("a", ⟨FType.f, 2, 0⟩),
      ("b/c", ⟨FType.f, 1, 0⟩)] := by decide

/-- C10, counterexample: with `rel_path` strictly inside `.synkrotron`,
the base check of line 281 matches the anchored exclude `/.synkrotron`
against the longer path `.synkrotron/config` and fails, so the walk
proceeds and the produced map contains `.synkrotron/config` and the file
below it — paths under the top-level `.synkrotron` directory. -/
theorem C10_counterexample :
    (collect_local (initExclude []) [] 1 ".synkrotron/config"
        (FSNode.dir "config" 0 0 [FSNode.file "secret" 3 0])).map Prod.fst =
      [".synkrotron/config", ".synkrotron/config/secret"] ∧
    pyStartsWith ".synkrotron/config" ".synkrotron/" = true ∧
    pyStartsWith ".synkrotron/config/secret" ".synkrotron/" = true := by
  refine ⟨by decide, by decide, by decide⟩

lemma contains_eq_true_iff {α} [BEq α] [LawfulBEq α] (l : List α) (a : α) :
    l.contains a = true ↔ a ∈ l :=
  List.contains_iff_exists_mem_beq.trans (by simp)

lemma takeWhileSlash_append (m : List Char) :
    ∀ l : List Char,
      (l ++ '/' :: m).takeWhile (fun c => !(c == '/')) =
        l.takeWhile (fun c => !(c == '/')) := by
  intro l
  induction l with
  | nil => rfl
  | cons a t ih =>
    rw [List.cons_append, List.takeWhile_cons, List.takeWhile_cons]
    by_cases ha : (!(a == '/')) = true
    · rw [if_pos ha, if_pos ha, ih]
    · rw [if_neg ha, if_neg ha]

lemma firstCompOf_no_slash (n : String) (h : '/' ∉ n.data) : firstCompOf n = n := by
  unfold firstCompOf
  rw [takeWhile_of_all n.data (fun a ha => by
    simp only [Bool.not_eq_eq_eq_not, Bool.not_true, beq_eq_false_iff_ne]
    intro hslash
    subst hslash
    exact h ha)]

lemma firstCompOf_relJoin (relDir n : String) (hdir : relDir ≠ ".") :
    firstCompOf (relJoin relDir n) = firstCompOf relDir := by
  unfold relJoin
  by_cases hn : n = "."
  · rw [if_pos hn]
  · rw [if_neg hn, if_neg hdir]
    unfold firstCompOf
    have hdata : (relDir ++ "/" ++ n).data = relDir.data ++ '/' :: n.data := by
      simp [String.data_append, List.append_assoc]
    rw [hdata, takeWhileSlash_append]

lemma firstCompOf_startsWith (k : String)
    (h : pyStartsWith k ".synkrotron/" = true) : firstCompOf k = ".synkrotron" := by
  unfold pyStartsWith at h
  obtain ⟨t, ht⟩ := List.isPrefixOf_iff_prefix.mp h
  unfold firstCompOf
  rw [← ht]
  have hdata : (".synkrotron/").data ++ t = (".synkrotron").data ++ '/' :: t := rfl
  rw [hdata, takeWhileSlash_append]
  rfl

lemma ignoreStep_true_of_exclude (exclude include_ wl : List String)
    (dirpath fn : String) (h1 : relJoin dirpath fn ≠ ".")
    (h2 : exclude.any (fun p => matchPat (relJoin dirpath fn) p) = true) :
    ignoreStep exclude include_ wl dirpath fn = (true, wl) := by
  unfold ignoreStep
  rw [if_neg h1, if_pos h2]

lemma mem_ignoreFiles_of_step (exclude include_ : List String) (dirpath n : String)
    (hstep : ∀ wl, (ignoreStep exclude include_ wl dirpath n).1 = true) :
    ∀ (names : List String) (wl : List String), n ∈ names →
      n ∈ (ignoreFiles exclude include_ wl dirpath names).1 := by
  intro names
  induction names with
  | nil => intro wl h; cases h
  | cons a rest ih =>
    intro wl hmem
    simp only [ignoreFiles]
    rcases List.mem_cons.mp hmem with h2 | h2
    · subst h2
      rw [hstep wl, if_pos rfl]
      exact List.mem_cons_self n _
    · cases hc : (ignoreStep exclude include_ wl dirpath a).1 with
      | true =>
        rw [if_pos rfl]
        exact List.mem_cons_of_mem _ (ih _ h2)
      | false =>
        rw [if_neg Bool.false_ne_true]
        exact ih _ h2

lemma wfLevel_nil (fuel : Nat) : wfLevel fuel [] = true := by
  cases fuel <;> rfl

lemma wfLevel_succ_names (fuel : Nat) (cs : List FSNode)
    (h : wfLevel (fuel + 1) cs = true) :
    ∀ c ∈ cs, nodeName c ≠ "." ∧ '/' ∉ (nodeName c).data := by
  intro c hc
  simp only [wfLevel, Bool.and_eq_true] at h
  have := List.all_eq_true.mp h.1 c hc
  rw [Bool.and_eq_true] at this
  constructor
  · intro he
    rw [Bool.not_eq_eq_eq_not, Bool.not_true, beq_eq_false_iff_ne] at this
    exact this.1 he
  · intro hs
    have h2 := this.2
    rw [Bool.not_eq_eq_eq_not, Bool.not_true] at h2
    rw [(contains_eq_true_iff _ _).mpr hs] at h2
    exact Bool.noConfusion h2

lemma wfLevel_succ_children (fuel : Nat) (cs : List FSNode)
    (h : wfLevel (fuel + 1) cs = true) :
    ∀ c ∈ cs, wfLevel fuel (nodeChildren c) = true := by
  simp only [wfLevel, Bool.and_eq_true] at h
  exact List.all_eq_true.mp h.2.2

lemma wfLevel_childrenOf (fuel : Nat) (cs : List FSNode)
    (h : wfLevel (fuel + 1) cs = true) (n : String) :
    wfLevel fuel (childrenOf cs n) = true := by
  cases hfind : childNamed cs n with
  | none =>
    have he : childrenOf cs n = [] := by
      unfold childrenOf
      rw [hfind]
    rw [he]
    exact wfLevel_nil fuel
  | some c =>
    have he : childrenOf cs n = nodeChildren c := by
      unfold childrenOf
      rw [hfind]
    rw [he]
    exact wfLevel_succ_children fuel cs h c
      (List.mem_of_find?_eq_some hfind)

lemma dirNamesOf_wf (fuel : Nat) (cs : List FSNode)
    (h : wfLevel (fuel + 1) cs = true) :
    ∀ n ∈ dirNamesOf cs, n ≠ "." ∧ '/' ∉ n.data := by
  intro n hn
  unfold dirNamesOf sortStrs at hn
  have hn2 : n ∈ (cs.filter isDirNode).map nodeName :=
    (List.perm_insertionSort rStr _).subset hn
  obtain ⟨c, hc, hcn⟩ := List.mem_map.mp hn2
  subst hcn
  exact wfLevel_succ_names fuel cs h c (List.mem_filter.mp hc).1

lemma fileNamesOf_wf (fuel : Nat) (cs : List FSNode)
    (h : wfLevel (fuel + 1) cs = true) :
    ∀ n ∈ fileNamesOf cs, n ≠ "." ∧ '/' ∉ n.data := by
  intro n hn
  unfold fileNamesOf sortStrs at hn
  have hn2 : n ∈ (cs.filter (fun c => !(isDirNode c))).map nodeName :=
    (List.perm_insertionSort rStr _).subset hn
  obtain ⟨c, hc, hcn⟩ := List.mem_map.mp hn2
  subst hcn
  exact wfLevel_succ_names fuel cs h c (List.mem_filter.mp hc).1

lemma keptNames_first_comp (exclude include_ : List String)
    (hx : "/.synkrotron" ∈ exclude) (relDir : String)
    (hrel : relDir = "." ∨ firstCompOf relDir ≠ ".synkrotron")
    (wl0 names : List String) (hns : ∀ n ∈ names, n ≠ "." ∧ '/' ∉ n.data) :
    ∀ n ∈ keptNames exclude include_ wl0 relDir names,
      firstCompOf (relJoin relDir n) ≠ ".synkrotron" := by
  intro n hn
  have hmemf := List.mem_filter.mp hn
  have hnn := hns n hmemf.1
  by_cases hdot : relDir = "."
  · subst hdot
    have hrj : relJoin "." n = n := by
      unfold relJoin
      rw [if_neg hnn.1, if_pos rfl]
    rw [hrj, firstCompOf_no_slash n hnn.2]
    intro hcontra
    subst hcontra
    have hstep : ∀ wl1, (ignoreStep exclude include_ wl1 "." ".synkrotron").1 = true := by
      intro wl1
      rw [ignoreStep_true_of_exclude exclude include_ wl1 "." ".synkrotron"
        (by decide)
        (List.any_eq_true.mpr ⟨"/.synkrotron", hx, by decide⟩)]
    have hign := mem_ignoreFiles_of_step exclude include_ "." ".synkrotron"
      hstep names wl0 hmemf.1
    have hcont := hmemf.2
    rw [Bool.not_eq_eq_eq_not, Bool.not_true] at hcont
    rw [(contains_eq_true_iff _ _).mpr hign] at hcont
    exact Bool.noConfusion hcont
  · rw [firstCompOf_relJoin relDir n hdot]
    exact hrel.resolve_left hdot

lemma walkList_keys (exclude include_ : List String)
    (hx : "/.synkrotron" ∈ exclude) :
    ∀ (fuel : Nat) (wl : List String) (relDir : String) (children : List FSNode),
      wfLevel fuel children = true →
      (relDir = "." ∨ firstCompOf relDir ≠ ".synkrotron") →
      ∀ k ∈ (walkList exclude include_ fuel wl relDir children).1.map Prod.fst,
        firstCompOf k ≠ ".synkrotron" := by
  intro fuel
  induction fuel with
  | zero =>
    intro wl relDir children _ _ k hk
    simp only [walkList, List.map_nil] at hk
    cases hk
  | succ fuel ih =>
    intro wl relDir children hwf hrel k hk
    have hkeptD := keptNames_first_comp exclude include_ hx relDir hrel wl
      (dirNamesOf children) (dirNamesOf_wf fuel children hwf)
    have hkeptF := keptNames_first_comp exclude include_ hx relDir hrel
      (ignoreFiles exclude include_ wl relDir (dirNamesOf children)).2
      (fileNamesOf children) (fileNamesOf_wf fuel children hwf)
    have hrecurse : ∀ (ns : List String),
        (∀ n ∈ ns, firstCompOf (relJoin relDir n) ≠ ".synkrotron") →
        ∀ (wl2 : List String) (k2 : String),
          k2 ∈ (recurseDirs (walkList exclude include_ fuel) children relDir
            wl2 ns).1.map Prod.fst →
          firstCompOf k2 ≠ ".synkrotron" := by
      intro ns
      induction ns with
      | nil =>
        intro _ wl2 k2 hk2
        simp only [recurseDirs, List.map_nil] at hk2
        cases hk2
      | cons n rest ihn =>
        intro hns wl2 k2 hk2
        simp only [recurseDirs, List.map_append, List.mem_append] at hk2
        rcases hk2 with hk2 | hk2
        · exact ih _ (relJoin relDir n) (childrenOf children n)
            (wfLevel_childrenOf fuel children hwf n)
            (Or.inr (hns n (List.mem_cons_self n rest))) k2 hk2
        · exact ihn (fun m hm => hns m (List.mem_cons_of_mem n hm)) _ k2 hk2
    simp only [walkList, List.map_append, List.mem_append, List.map_map] at hk
    rcases hk with (hk | hk) | hk
    · obtain ⟨n, hn, heq⟩ := List.mem_map.mp hk
      simp only [Function.comp_apply] at heq
      subst heq
      exact hkeptD n hn
    · obtain ⟨n, hn, heq⟩ := List.mem_map.mp hk
      simp only [Function.comp_apply] at heq
      subst heq
      exact hkeptF n hn
    · exact hrecurse _ hkeptD _ k hk

/-- C10, amended: `Repo.__init__` does append the anchored `/.synkrotron`
pattern to every exclude list, and for the default walk root
(`rel_path = '.'`): whatever the user exclude/include patterns and the
directory tree (well-formed names, any depth within fuel), no produced
key is `.synkrotron` or lies below it — but this protection is tied to
the walk root, not global (see the counterexample for
`rel_path` inside `.synkrotron`). -/
theorem C10_amended_synkrotron_never_collected
    (user_exclude include_ : List String) (fuel : Nat) (tree : FSNode)
    (hwf : wfLevel fuel (nodeChildren tree) = true) :
    "/.synkrotron" ∈ initExclude user_exclude ∧
    ∀ k ∈ (collect_local (initExclude user_exclude) include_ fuel "." tree).map
        Prod.fst,
      k ≠ ".synkrotron" ∧ pyStartsWith k ".synkrotron/" = false := by
  constructor
  · unfold initExclude
    exact List.mem_append_right _ (List.mem_singleton.mpr rfl)
  · intro k hk
    have hcl : collect_local (initExclude user_exclude) include_ fuel "." tree =
        (".", nodeStat tree) ::
          (walkList (initExclude user_exclude) include_ fuel [] "."
            (nodeChildren tree)).1 := rfl
    rw [hcl] at hk
    simp only [List.map_cons, List.mem_cons] at hk
    rcases hk with hk | hk
    · subst hk
      exact ⟨by decide, by decide⟩
    · have hfc := walkList_keys (initExclude user_exclude) include_
        (List.mem_append_right _ (List.mem_singleton.mpr rfl))
        fuel [] "." (nodeChildren tree) hwf (Or.inl rfl) k hk
      constructor
      · intro he
        subst he
        exact hfc rfl
      · cases hsw : pyStartsWith k ".synkrotron/" with
        | false => rfl
        | true => exact absurd (firstCompOf_startsWith k hsw) hfc

/-- C10, witness for the amended theorem: a tree containing a top-level
`.synkrotron` directory with a file inside, next to an ordinary file. -/
theorem C10_amended_witness :
    wfLevel 2 (nodeChildren (FSNode.dir "." 0 0
      [FSNode.dir ".synkrotron" 0 0 [FSNode.file "config" 1 0],
        FSNode.file "a" 2 0])) = true ∧
    ("/.synkrotron" ∈ initExclude ["b"] ∧
      ∀ k ∈ (collect_local (initExclude ["b"]) [] 2 "."
          (FSNode.dir "." 0 0
            [FSNode.dir ".synkrotron" 0 0 [FSNode.file "config" 1 0],
              FSNode.file "a" 2 0])).map Prod.fst,
        k ≠ ".synkrotron" ∧ pyStartsWith k ".synkrotron/" = false) :=
  ⟨by decide,
    C10_amended_synkrotron_never_collected ["b"] [] 2
      (FSNode.dir "." 0 0
        [FSNode.dir ".synkrotron" 0 0 [FSNode.file "config" 1 0],
          FSNode.file "a" 2 0]) (by decide)⟩

end Synkrotron
